import Mathlib

/-!
# Prow job templater: a shallow embedding of `templater/main.go`

The generator reads job definitions, derives per-job defaults (cluster, bucket,
service account, branches, builder tag, environment variables), renders one of
three templates and writes the result under the jobs folder of the enclosing
git repository.

Conventions of the embedding

* Go `string` values are Lean `String`s, that is, valid UTF-8 text; the library
  routines that scan a string (`strings.Replace`, `strings.Fields`,
  `filepath.Clean`, ...) are written by structural recursion over `String.data`.
  The patterns searched for are ASCII, so scanning characters and scanning bytes
  find the same occurrences.
* Go functions returning `(value, error)` return `Except`.
* The file system is an explicit state: a function from resolved path keys (lists
  of components below `/`) to nodes.  Name resolution is lexical (no symbolic
  links); permissions, quotas and devices are not modelled.  The theorems hold
  for every state, also for states no real file system can be in (a file below
  a file).
* Inputs that the program receives from outside `main.go` (the output of the git
  command, the job lists of package `jobs`, the template engine of package
  `utils`, the embedded template texts) are the fields of `Env`.
-/

namespace Templater

/-! ## Package-level variables (main.go lines 17-39) -/

/-- The variable `jobsFolder` (line 18). -/
def jobsFolder : String := "jobs"

/-- The variable `orgsSupported` (line 19). -/
def orgsSupported : List String := ["rcrozean"]

/-- The variable `jobTypes` (line 20). -/
def jobTypes : List String := ["periodic", "postsubmit", "presubmit"]

/-- The variable `buildkitImageTag` (line 39). -/
def buildkitImageTag : String := "v0.12.3-rootless"

/-! ## Go standard library routines used by main.go -/

/-- Go `strings.Replace(s, old, new, 1)` on character lists: the first occurrence of
`old` (scanning from the left) is replaced by `new`; without an occurrence the input
is returned unchanged.  An empty `old` matches at the very start. -/
def replaceFirst (old new : List Char) : List Char → List Char
  | [] => if old = [] then new else []
  | c :: t =>
    if old.isPrefixOf (c :: t) then new ++ (c :: t).drop old.length
    else c :: replaceFirst old new t

/-- Go `strings.Replace(s, old, new, 1)`. -/
def stringsReplaceFirst (s old new : String) : String :=
  ⟨replaceFirst old.data new.data s.data⟩

/-- Number of positions of `s` at which `sub` occurs. -/
def countOccurrences (sub : List Char) : List Char → Nat
  | [] => if sub = [] then 1 else 0
  | c :: t => (if sub.isPrefixOf (c :: t) then 1 else 0) + countOccurrences sub t

/-- Number of occurrences of the substring `sub` in `s`. -/
def occurrences (sub s : String) : Nat := countOccurrences sub.data s.data

/-- The string `s` contains `sub` as a substring (Go `strings.Contains`). -/
def containsSubstring (sub s : String) : Prop := sub.data <:+: s.data

/-- The characters of `standard`. -/
abbrev standardChars : List Char := ['s', 't', 'a', 'n', 'd', 'a', 'r', 'd']

/-- The characters of `minimal`. -/
abbrev minimalChars : List Char := ['m', 'i', 'n', 'i', 'm', 'a', 'l']

/-- Go `unicode.IsSpace`: the Unicode White_Space code points. -/
def isSpace (c : Char) : Bool :=
  let n := c.toNat
  (9 ≤ n && n ≤ 13) || n = 32 || n = 0x85 || n = 0xA0 || n = 0x1680 ||
  (0x2000 ≤ n && n ≤ 0x200A) || n = 0x2028 || n = 0x2029 || n = 0x202F ||
  n = 0x205F || n = 0x3000

/-- Worker of `strings.Fields`: `cur` is the field being read. -/
def fieldsAux (cur : List Char) : List Char → List (List Char)
  | [] => if cur = [] then [] else [cur]
  | c :: t =>
    if isSpace c then
      (if cur = [] then fieldsAux [] t else cur :: fieldsAux [] t)
    else fieldsAux (cur ++ [c]) t

/-- Go `strings.Fields`: the maximal runs of non-space characters, in order. -/
def stringsFields (s : String) : List String :=
  (fieldsAux [] s.data).map String.mk

/-- Go `strings.Join`. -/
def stringsJoin (elems : List String) (sep : String) : String :=
  match elems with
  | [] => ""
  | e :: rest => rest.foldl (fun acc x => acc ++ sep ++ x) e

/-- Worker of `splitSlash`: `cur` is the component being read. -/
def splitSlashAux (cur : List Char) : List Char → List (List Char)
  | [] => [cur]
  | c :: t => if c = '/' then cur :: splitSlashAux [] t else splitSlashAux (cur ++ [c]) t

/-- The components of a path between its `/` separators (empty ones included). -/
def splitSlash (p : String) : List String :=
  (splitSlashAux [] p.data).map String.mk

/-- A path is rooted when it starts with `/`. -/
def isRooted (p : String) : Bool :=
  match p.data with
  | c :: _ => c = '/'
  | [] => false

/-- The element stack of `filepath.Clean`: empty and `.` elements are dropped, `..`
removes the element before it, is dropped at the root, and is kept at the start of a
path that is not rooted. -/
def cleanStack (rooted : Bool) : List String → List String → List String
  | stack, [] => stack
  | stack, c :: cs =>
    if c = "" ∨ c = "." then cleanStack rooted stack cs
    else if c = ".." then
      (match stack.getLast? with
       | some top =>
         if top = ".." then cleanStack rooted (stack ++ [c]) cs
         else cleanStack rooted stack.dropLast cs
       | none =>
         if rooted then cleanStack rooted stack cs
         else cleanStack rooted (stack ++ [c]) cs)
    else cleanStack rooted (stack ++ [c]) cs

/-- Go `filepath.Clean` (Unix): the shortest path equivalent to `p` by purely lexical
processing. -/
def filepathClean (p : String) : String :=
  let stack := cleanStack (isRooted p) [] (splitSlash p)
  if isRooted p then "/" ++ stringsJoin stack "/"
  else if stack = [] then "." else stringsJoin stack "/"

/-- Go `filepath.Join`: the elements from the first non-empty one on are joined with
`/` and cleaned; the result is empty when every element is empty. -/
def filepathJoin : List String → String
  | [] => ""
  | e :: rest => if e = "" then filepathJoin rest else filepathClean (stringsJoin (e :: rest) "/")

/-- The part of a path up to and including its last `/`. -/
def dirPart : List Char → List Char
  | [] => []
  | c :: t =>
    if t.contains '/' then c :: dirPart t
    else if c = '/' then [c] else []

/-- Go `filepath.Dir` (Unix): all but the last element of the path, cleaned. -/
def filepathDir (p : String) : String := filepathClean ⟨dirPart p.data⟩

/-! ## Errors -/

/-- How a Go call fails: with an `error` value, or with a run-time panic. -/
inductive Fault where
  | error (msg : String)
  | panic (msg : String)
  deriving DecidableEq, Repr

/-! ## The file system -/

/-- A file-system node. -/
inductive Node where
  | file (content : String)
  | dir
  deriving DecidableEq, Repr

/-- An explicit file-system state.  A key is the list of components of a path below
the root directory; `node` gives the node stored at a key, `cwd` is the key of the
working directory of the process. -/
structure FileSystem where
  cwd : List String
  node : List String → Option Node

namespace FileSystem

/-- The node at a key; the root directory always exists. -/
def stat (fs : FileSystem) (key : List String) : Option Node :=
  if key = [] then some Node.dir else fs.node key

/-- Name resolution walks the components: empty and `.` stay, `..` goes to the parent
(the root is its own parent), a name goes down. -/
def walk : List String → List String → List String
  | at_, [] => at_
  | at_, c :: cs =>
    if c = "" ∨ c = "." then walk at_ cs
    else if c = ".." then walk at_.dropLast cs
    else walk (at_ ++ [c]) cs

/-- The key a path names for a process working in `cwd`: rooted paths start at the
root, others at `cwd`. -/
def resolveFrom (cwd : List String) (p : String) : List String :=
  if isRooted p then walk [] (splitSlash p) else walk cwd (splitSlash p)

/-- The key a path names in this file system. -/
def resolve (fs : FileSystem) (p : String) : List String :=
  resolveFrom fs.cwd p

/-- A regular file exists at the key. -/
def isFile (fs : FileSystem) (key : List String) : Bool :=
  match fs.stat key with
  | some (Node.file _) => true
  | _ => false

/-- A directory exists at the key. -/
def isDir (fs : FileSystem) (key : List String) : Bool :=
  match fs.stat key with
  | some Node.dir => true
  | _ => false

/-- The content of the regular file a path names, if there is one. -/
def readFile (fs : FileSystem) (p : String) : Option String :=
  match fs.stat (fs.resolve p) with
  | some (Node.file content) => some content
  | _ => none

/-- Go `os.MkdirAll(p, 0o755)`: creates the directory named by `p` together with every
missing ancestor; fails when the path is empty or a component on the way is a regular
file, and then changes nothing. -/
def mkdirAll (fs : FileSystem) (p : String) : Except String FileSystem :=
  if p = "" then .error ("mkdir " ++ p ++ ": no such file or directory")
  else
    let key := fs.resolve p
    if key.inits.any fs.isFile then .error ("mkdir " ++ p ++ ": not a directory")
    else .ok { fs with
      node := fun k => if k.isPrefixOf key ∧ fs.node k = none then some Node.dir else fs.node k }

/-- Go `ioutil.WriteFile(p, content, 0o644)`: creates or truncates the regular file
named by `p` and stores `content`; fails when the path is empty, names a directory, or
its parent is not an existing directory, and then changes nothing. -/
def writeFile (fs : FileSystem) (p content : String) : Except String FileSystem :=
  if p = "" then .error ("open " ++ p ++ ": no such file or directory")
  else
    let key := fs.resolve p
    if key = [] ∨ fs.isDir key then .error ("open " ++ p ++ ": is a directory")
    else if fs.isDir key.dropLast then
      .ok { fs with node := fun k => if k = key then some (Node.file content) else fs.node k }
    else if fs.isFile key.dropLast then .error ("open " ++ p ++ ": not a directory")
    else .error ("open " ++ p ++ ": no such file or directory")

/-- The path ends in a `.` element (Go `endsWithDot`). -/
def endsWithDot (p : String) : Bool :=
  p == "." || (match p.data.reverse with
    | c :: d :: _ => c == '.' && d == '/'
    | _ => false)

/-- Go `os.RemoveAll(p)`: removes the node named by `p` and everything below it; a
path that names nothing is not an error.  The empty path is ignored, a path ending in
a `.` element is refused, and so is the root directory. -/
def removeAll (fs : FileSystem) (p : String) : Except String FileSystem :=
  if p = "" then .ok fs
  else if endsWithDot p then .error ("RemoveAll " ++ p ++ ": invalid argument")
  else
    let key := fs.resolve p
    if key = [] then .error ("unlinkat " ++ p ++ ": device or resource busy")
    else .ok { fs with node := fun k => if key.isPrefixOf k then none else fs.node k }

end FileSystem

/-! ## Data model -/

/-- The type `types.EnvVar`, as main.go builds it (lines 72-73). -/
structure EnvVar where
  Name : String
  Value : String
  deriving DecidableEq, Repr

/-- A value stored in the `map[string]interface{}` handed to the template engine:
a string, a boolean, a list of strings, a list of environment variables, or (`raw`) a
value of a type declared outside main.go, which main.go only passes on. -/
inductive Value where
  | str (s : String)
  | bool (b : Bool)
  | strs (ss : List String)
  | envVars (es : List EnvVar)
  | raw (repr : String)
  deriving DecidableEq, Repr

/-- The render context `data` of main.go: a map literal with distinct keys. -/
abbrev Data := List (String × Value)

/-- Modelled from the spec: the declaration of `types.JobConfig` is not among the
sources.  The fields are those main.go reads; the ones main.go computes with carry
the type that use fixes, the ones it only copies into the render context are kept as
untyped values. -/
structure JobConfig where
  Architecture : Value
  JobName : Value
  RunIfChanged : Value
  SkipIfOnlyChanged : Value
  Branches : List String
  CronExpression : Value
  MaxConcurrency : Value
  Timeout : Value
  ExtraRefs : Value
  ImageBuild : Value
  UseDockerBuildX : Bool
  UseMinimalBuilderBase : Bool
  PRCreation : Value
  RuntimeImage : Value
  LocalRegistry : Value
  ServiceAccountName : String
  Commands : List String
  Resources : Value
  EnvVars : List EnvVar
  Volumes : Value
  VolumeMounts : Value
  AutomountServiceAccountToken : Value
  Cluster : String
  ProjectPath : Value
  RunAsUser : Value
  RunAsGroup : Value

/-- The job list of one job kind, `map[string]map[string]types.JobConfig`: repository
name, then file name, then job.  The list order is the order in which `range` visits
the map. -/
abbrev JobList := List (String × List (String × JobConfig))

/-- What the program receives from outside main.go. -/
structure Env where
  /-- Outcome of `git rev-parse --show-toplevel`: an error or the standard output. -/
  gitRevParse : Except String String
  /-- Package function `jobs.GetJobList`. -/
  getJobList : String → Except String JobList
  /-- Package function `utils.ExecuteTemplate`. -/
  executeTemplate : String → Data → Except String String
  /-- Embedded file `templates/presubmits.yaml`. -/
  presubmitTemplate : String
  /-- Embedded file `templates/postsubmits.yaml`. -/
  postsubmitTemplate : String
  /-- Embedded file `templates/periodics.yaml`. -/
  periodicTemplate : String
  /-- Embedded file `templates/warning.txt`. -/
  editWarning : String
  /-- Embedded file `BUILDER_BASE_TAG_FILE`. -/
  builderBaseTag : String

/-- How a run of the program ends: normally, by `os.Exit(1)` after printing a
message, or by a panic. -/
inductive Outcome where
  | success
  | failure (printed : String)
  | panic (msg : String)
  deriving DecidableEq, Repr

/-! ## The functions of main.go -/

/-- The function `clusterDetails` (lines 178-196).  The test of line 186 guards the
assignments to both `cluster` and `bucket`; `len(s) == 0` holds exactly for the empty
string, whether length counts bytes or characters. -/
def clusterDetails (jobType cluster serviceAccountName : String) : String × String × String :=
  let jobType := if cluster = "prow-postsubmits-cluster" then "postsubmit" else jobType
  let cluster := "prow-presubmits-cluster"
  let bucket := "s3://prow-data-presubmits-devstack-prowbucket7c73355c-5qn1vzrmqzuf"
  let isPost : Bool := jobType = "postsubmit" ∨ jobType = "periodic"
  let cluster := if isPost then "prow-postsubmits-cluster" else cluster
  let bucket :=
    if isPost then "s3://prow-data-devstack-prowbucket7c73355c-x1drvm9kvgac" else bucket
  let serviceAccountName :=
    if serviceAccountName.length = 0 then jobType ++ "s-build-account" else serviceAccountName
  (cluster, bucket, serviceAccountName)

/-- The function `useTemplate` (lines 165-176). -/
def useTemplate (env : Env) (jobType : String) : Except String String :=
  if jobType = "periodic" then .ok env.periodicTemplate
  else if jobType = "postsubmit" then .ok env.postsubmitTemplate
  else if jobType = "presubmit" then .ok env.presubmitTemplate
  else .error ("Unsupported job type: " ++ jobType)

/-- The function `getJobsFolderPath` (lines 155-163).  Indexing the empty result of
`strings.Fields` panics. -/
def getJobsFolderPath (env : Env) : Except Fault String :=
  match env.gitRevParse with
  | .error e => .error (Fault.error ("error running the git command: " ++ e))
  | .ok gitRootOutput =>
    match stringsFields gitRootOutput with
    | [] => .error (Fault.panic "runtime error: index out of range [0] with length 0")
    | gitRoot :: _ => .ok (filepathJoin [gitRoot, jobsFolder])

/-- The function `GenerateProwjob` (lines 132-153), as a transition of the file
system that also yields the returned error, if any.  The type assertion on
`data["repoName"]` panics when the entry is missing or not a string. -/
def GenerateProwjob (env : Env) (prowjobFileName templateContent : String) (data : Data)
    (fs : FileSystem) : FileSystem × Option Fault :=
  match env.executeTemplate templateContent data with
  | .error e => (fs, some (Fault.error ("error executing template: " ++ e)))
  | .ok bytes =>
    match getJobsFolderPath env with
    | .error (Fault.error e) =>
      (fs, some (Fault.error ("error getting jobs folder path: " ++ e)))
    | .error (Fault.panic m) => (fs, some (Fault.panic m))
    | .ok jobsFolderPath =>
      match data.lookup "repoName" with
      | some (Value.str repoName) =>
        let prowjobPath := filepathJoin [jobsFolderPath, repoName, prowjobFileName]
        match fs.mkdirAll (filepathDir prowjobPath) with
        | .error e => (fs, some (Fault.error ("error creating Prowjob directory: " ++ e)))
        | .ok fs1 =>
          match fs1.writeFile prowjobPath bytes with
          | .error e =>
            (fs1, some (Fault.error ("error writing to path " ++ prowjobPath ++ ": " ++ e)))
          | .ok fs2 => (fs2, none)
      | _ => (fs, some (Fault.panic "interface conversion: interface is not string"))

/-- The render context that `main` builds for one job (lines 69-120). -/
def renderData (env : Env) (jobType repoName : String) (jobConfig : JobConfig) : Data :=
  let envVars := jobConfig.EnvVars
  let envVars :=
    if jobConfig.UseDockerBuildX then
      (envVars ++ [{ Name := "BUILDKITD_IMAGE", Value := "moby/buildkit:" ++ buildkitImageTag }])
        ++ [{ Name := "USE_BUILDX", Value := "true" }]
    else envVars
  let templateBuilderBaseTag := env.builderBaseTag
  let templateBuilderBaseTag :=
    if jobConfig.UseMinimalBuilderBase then
      stringsReplaceFirst env.builderBaseTag "standard" "minimal"
    else templateBuilderBaseTag
  let branches := jobConfig.Branches
  let branches :=
    if jobType = "postsubmit" ∧ branches.length = 0 then branches ++ ["^main$"] else branches
  let details := clusterDetails jobType jobConfig.Cluster jobConfig.ServiceAccountName
  let cluster := details.1
  let bucket := details.2.1
  let serviceAccountName := details.2.2
  [ ("architecture", jobConfig.Architecture),
    ("repoName", Value.str repoName),
    ("prowjobName", jobConfig.JobName),
    ("runIfChanged", jobConfig.RunIfChanged),
    ("skipIfOnlyChanged", jobConfig.SkipIfOnlyChanged),
    ("branches", Value.strs branches),
    ("cronExpression", jobConfig.CronExpression),
    ("maxConcurrency", jobConfig.MaxConcurrency),
    ("timeout", jobConfig.Timeout),
    ("extraRefs", jobConfig.ExtraRefs),
    ("imageBuild", jobConfig.ImageBuild),
    ("useDockerBuildX", Value.bool jobConfig.UseDockerBuildX),
    ("prCreation", jobConfig.PRCreation),
    ("runtimeImage", jobConfig.RuntimeImage),
    ("localRegistry", jobConfig.LocalRegistry),
    ("serviceAccountName", Value.str serviceAccountName),
    ("command", Value.str (stringsJoin jobConfig.Commands "\n&&\n")),
    ("builderBaseTag", Value.str templateBuilderBaseTag),
    ("buildkitImageTag", Value.str buildkitImageTag),
    ("resources", jobConfig.Resources),
    ("envVars", Value.envVars envVars),
    ("volumes", jobConfig.Volumes),
    ("volumeMounts", jobConfig.VolumeMounts),
    ("editWarning", Value.str env.editWarning),
    ("automountServiceAccountToken", jobConfig.AutomountServiceAccountToken),
    ("cluster", Value.str cluster),
    ("bucket", Value.str bucket),
    ("projectPath", jobConfig.ProjectPath),
    ("diskUsage", Value.bool true),
    ("runAsUser", jobConfig.RunAsUser),
    ("runAsGroup", jobConfig.RunAsGroup) ]

/-- A `for ... range` loop whose body may end the run: the body is applied to the
elements in order, and the first outcome other than success stops the loop. -/
def forEach {α : Type} (f : α → FileSystem → FileSystem × Outcome) :
    List α → FileSystem → FileSystem × Outcome
  | [], fs => (fs, Outcome.success)
  | x :: xs, fs =>
    match f x fs with
    | (fs1, Outcome.success) => forEach f xs fs1
    | r => r

/-- The body of the clean-up loop of `main` (lines 49-52). -/
def removeOrg (jobsFolderPath org : String) (fs : FileSystem) : FileSystem × Outcome :=
  match fs.removeAll (filepathJoin [jobsFolderPath, org]) with
  | .error e => (fs, Outcome.failure ("Error removing jobs folder path: " ++ e))
  | .ok fs1 => (fs1, Outcome.success)

/-- The body of the innermost loop of `main` (lines 69-126): one job. -/
def generateJob (env : Env) (jobType template repoName : String)
    (job : String × JobConfig) (fs : FileSystem) : FileSystem × Outcome :=
  match GenerateProwjob env job.1 template (renderData env jobType repoName job.2) fs with
  | (fs1, none) => (fs1, Outcome.success)
  | (fs1, some (Fault.error e)) =>
    (fs1, Outcome.failure ("Error generating Prowjob " ++ job.1 ++ ": " ++ e ++ "\n"))
  | (fs1, some (Fault.panic m)) => (fs1, Outcome.panic m)

/-- The body of the loop of `main` over the job kinds (lines 56-128). -/
def generateJobType (env : Env) (jobType : String) (fs : FileSystem) : FileSystem × Outcome :=
  match env.getJobList jobType with
  | .error e => (fs, Outcome.failure ("Error getting job list: " ++ e ++ "\n"))
  | .ok jobList =>
    match useTemplate env jobType with
    | .error e => (fs, Outcome.failure ("Error getting job list: " ++ e ++ "\n"))
    | .ok template =>
      forEach (fun (repo : String × List (String × JobConfig)) =>
        forEach (generateJob env jobType template repo.1) repo.2) jobList fs

/-- The function `main` (lines 41-130): one run of the generator, as a transition of
the file system together with the way the run ends. -/
def main (env : Env) (fs : FileSystem) : FileSystem × Outcome :=
  match getJobsFolderPath env with
  | .error (Fault.error e) => (fs, Outcome.failure ("Error getting jobs folder path: " ++ e))
  | .error (Fault.panic m) => (fs, Outcome.panic m)
  | .ok jobsFolderPath =>
    match forEach (removeOrg jobsFolderPath) orgsSupported fs with
    | (fs1, Outcome.success) => forEach (generateJobType env) jobTypes fs1
    | r => r

/-! ## Sample inputs -/

/-- A job that sets nothing beyond a name and two commands. -/
def exampleJob : JobConfig :=
  { Architecture := Value.raw "", JobName := Value.str "unit-tests", RunIfChanged := Value.raw "",
    SkipIfOnlyChanged := Value.raw "", Branches := [], CronExpression := Value.raw "",
    MaxConcurrency := Value.raw "", Timeout := Value.raw "", ExtraRefs := Value.raw "",
    ImageBuild := Value.raw "", UseDockerBuildX := false, UseMinimalBuilderBase := false,
    PRCreation := Value.raw "", RuntimeImage := Value.raw "", LocalRegistry := Value.raw "",
    ServiceAccountName := "", Commands := ["make build", "make test"],
    Resources := Value.raw "", EnvVars := [{ Name := "GOFLAGS", Value := "-mod=mod" }],
    Volumes := Value.raw "", VolumeMounts := Value.raw "",
    AutomountServiceAccountToken := Value.raw "", Cluster := "", ProjectPath := Value.raw "",
    RunAsUser := Value.raw "", RunAsGroup := Value.raw "" }

/-- An environment whose repository is at `/repo`, whose template engine returns the
template text, and whose only job is the presubmit `bar.yaml` of repository `foo`. -/
def exampleEnv : Env :=
  { gitRevParse := .ok "/repo\n",
    getJobList := fun k => if k = "presubmit" then .ok [("foo", [("bar.yaml", exampleJob)])] else .ok [],
    executeTemplate := fun t _ => .ok t,
    presubmitTemplate := "presubmits", postsubmitTemplate := "postsubmits",
    periodicTemplate := "periodics", editWarning := "# generated", builderBaseTag := "standard-7" }

/-- The environment of `exampleEnv` after every job definition has been removed. -/
def emptyJobsEnv : Env := { exampleEnv with getJobList := fun _ => .ok [] }

/-- A file system with no node but the root directory. -/
def emptyFS : FileSystem := { cwd := [], node := fun _ => none }

/-- The environment of `exampleEnv` with the repository placed in the folder of the
supported organization. -/
def orgEnv : Env :=
  { exampleEnv with
    getJobList := fun k =>
      if k = "presubmit" then .ok [("rcrozean/foo", [("bar.yaml", exampleJob)])] else .ok [] }

/-- A file system in which `/repo/jobs/foo/bar.yaml` already holds the text `old`. -/
def oldFS : FileSystem :=
  { cwd := [],
    node := fun k =>
      if k = ["repo", "jobs", "foo", "bar.yaml"] then some (Node.file "old")
      else if k.isPrefixOf ["repo", "jobs", "foo"] then some Node.dir else none }

/-! ## Predicates of the clean-up property -/

/-- The key lies in or below the folder `<root>/<org>` of a supported organization. -/
def UnderOrgFolder (cwd : List String) (root : String) (key : List String) : Prop :=
  ∃ org ∈ orgsSupported, FileSystem.resolveFrom cwd (filepathJoin [root, org]) <+: key

/-- Some job of the job lists of `env` has `key` as its output path and `content` as
its rendering. -/
def WrittenBy (env : Env) (cwd : List String) (root : String) (key : List String)
    (content : String) : Prop :=
  ∃ jobType ∈ jobTypes, ∃ jobList template, env.getJobList jobType = .ok jobList ∧
    useTemplate env jobType = .ok template ∧
    ∃ repo ∈ jobList, ∃ job ∈ repo.2,
      key = FileSystem.resolveFrom cwd (filepathJoin [root, repo.1, job.1]) ∧
      env.executeTemplate template (renderData env jobType repo.1 job.2) = .ok content

/-- The invariant of a run: every regular file in or below the folder of a supported
organization is the rendering of a job of this run, at that job's output path. -/
def OnlyOutputs (env : Env) (cwd : List String) (root : String) (fs : FileSystem) : Prop :=
  fs.cwd = cwd ∧
  ∀ key content, UnderOrgFolder cwd root key → fs.stat key = some (Node.file content) →
    WrittenBy env cwd root key content

/-! ## Predicates on paths -/

/-- A path element that is a name: not empty, not `.`, not `..`, without `/`. -/
def IsName (c : String) : Prop := c ≠ "" ∧ c ≠ "." ∧ c ≠ ".." ∧ '/' ∉ c.data

/-- The form of the element stack of a cleaned path: some `..` elements (none when the
path is rooted) followed by names. -/
def CleanShape (rooted : Bool) (stack : List String) : Prop :=
  ∃ n names, stack = List.replicate n ".." ++ names ∧ (∀ c ∈ names, IsName c) ∧
    (rooted = true → n = 0)

/-- The characters that follow the first element in a `/`-joined list. -/
def tailChars : List String → List Char
  | [] => []
  | x :: xs => '/' :: (x.data ++ tailChars xs)

/-- The path ends in a file name: its last element is not empty, `.` or `..`. -/
def namesFile (p : String) : Bool :=
  match (splitSlash p).getLast? with
  | some c => c ≠ "" ∧ c ≠ "." ∧ c ≠ ".."
  | none => false

/-! ## Cluster, bucket and service account -/

theorem length_default_account (k : String) : (k ++ "s-build-account").length ≠ 0 := by
  rw [String.length_append]
  have : "s-build-account".length = 15 := by decide
  omega

/-- C1: the cluster and bucket returned by `clusterDetails` are the postsubmit pair
exactly when the kind is periodic or postsubmit or the cluster override is the
postsubmit cluster, and the presubmit pair exactly in every other case; kind postsubmit
without override gives the postsubmit pair, kind presubmit without override the
presubmit pair. -/
theorem clusterDetails_cluster_bucket (k c s : String) :
    (((clusterDetails k c s).1, (clusterDetails k c s).2.1) =
        ("prow-postsubmits-cluster", "s3://prow-data-devstack-prowbucket7c73355c-x1drvm9kvgac")
      ↔ (k = "periodic" ∨ k = "postsubmit" ∨ c = "prow-postsubmits-cluster")) ∧
    (((clusterDetails k c s).1, (clusterDetails k c s).2.1) =
        ("prow-presubmits-cluster",
          "s3://prow-data-presubmits-devstack-prowbucket7c73355c-5qn1vzrmqzuf")
      ↔ ¬ (k = "periodic" ∨ k = "postsubmit" ∨ c = "prow-postsubmits-cluster")) ∧
    ((clusterDetails "postsubmit" "" s).1, (clusterDetails "postsubmit" "" s).2.1) =
        ("prow-postsubmits-cluster", "s3://prow-data-devstack-prowbucket7c73355c-x1drvm9kvgac") ∧
    ((clusterDetails "presubmit" "" s).1, (clusterDetails "presubmit" "" s).2.1) =
        ("prow-presubmits-cluster",
          "s3://prow-data-presubmits-devstack-prowbucket7c73355c-5qn1vzrmqzuf") := by
  refine ⟨?_, ?_, ?_, ?_⟩
  · unfold clusterDetails
    by_cases hc : c = "prow-postsubmits-cluster"
    · simp [hc]
    · by_cases h1 : k = "postsubmit"
      · simp [hc, h1]
      · by_cases h2 : k = "periodic"
        · simp [hc, h2]
        · simp [hc, h1, h2]
  · unfold clusterDetails
    by_cases hc : c = "prow-postsubmits-cluster"
    · simp [hc]
    · by_cases h1 : k = "postsubmit"
      · simp [hc, h1]
      · by_cases h2 : k = "periodic"
        · simp [hc, h2]
        · simp [hc, h1, h2]
  · simp [clusterDetails]
  · simp [clusterDetails]

/-- C2, as stated, fails: a presubmit job whose cluster override is the postsubmit
cluster and whose service account is empty gets `postsubmits-build-account`, not its
own kind followed by `s-build-account`. -/
theorem clusterDetails_account_override :
    (clusterDetails "presubmit" "prow-postsubmits-cluster" "").2.2 = "postsubmits-build-account" ∧
    (clusterDetails "presubmit" "prow-postsubmits-cluster" "").2.2 ≠
      "presubmit" ++ "s-build-account" := by
  decide

/-- C2, amended: with an empty service account, `clusterDetails` returns the effective
kind followed by `s-build-account`, where the effective kind is `postsubmit` when the
cluster override is the postsubmit cluster and the kind of the job otherwise. -/
theorem clusterDetails_account_default (k c : String) :
    (clusterDetails k c "").2.2 =
      (if c = "prow-postsubmits-cluster" then "postsubmit" else k) ++ "s-build-account" := by
  unfold clusterDetails
  by_cases hc : c = "prow-postsubmits-cluster" <;> simp [hc]

/-- C3: `clusterDetails` is idempotent on its own output: fed the cluster and service
account it returned, for the same kind, it returns the same triple. -/
theorem clusterDetails_idempotent (k c s c' b' s' : String)
    (h : clusterDetails k c s = (c', b', s')) : clusterDetails k c' s' = (c', b', s') := by
  unfold clusterDetails at h ⊢
  simp only [Prod.mk.injEq] at h
  obtain ⟨h1, h2, h3⟩ := h
  have hs : s'.length ≠ 0 := by
    rw [← h3]
    split
    · exact length_default_account _
    · assumption
  by_cases hc : c = "prow-postsubmits-cluster"
  · simp [hc] at h1 h2
    subst h1 h2
    simp [hs]
  · by_cases hk : k = "postsubmit" ∨ k = "periodic"
    · simp [hc, hk] at h1 h2
      subst h1 h2
      simp [hs]
    · simp [hc, hk] at h1 h2
      subst h1 h2
      simp [hs, hk]

/-- Witness of C3 at kind presubmit with neither override nor service account. -/
theorem clusterDetails_idempotent_witness :
    clusterDetails "presubmit" "" "" =
        ("prow-presubmits-cluster",
          "s3://prow-data-presubmits-devstack-prowbucket7c73355c-5qn1vzrmqzuf",
          "presubmits-build-account") ∧
    clusterDetails "presubmit" "prow-presubmits-cluster" "presubmits-build-account" =
        ("prow-presubmits-cluster",
          "s3://prow-data-presubmits-devstack-prowbucket7c73355c-5qn1vzrmqzuf",
          "presubmits-build-account") :=
  ⟨by decide, clusterDetails_idempotent "presubmit" "" "" _ _ _ (by decide)⟩

/-! ## Defaults placed in the render context -/

/-- C4: a postsubmit job with an empty branch list gets the branch list `["^main$"]`
in the render context; a job of any kind with a non-empty branch list keeps it. -/
theorem renderData_branches (env : Env) (jobType repoName : String) (cfg : JobConfig) :
    (cfg.Branches = [] →
      List.lookup "branches" (renderData env "postsubmit" repoName cfg) =
        some (Value.strs ["^main$"])) ∧
    (cfg.Branches ≠ [] →
      List.lookup "branches" (renderData env jobType repoName cfg) =
        some (Value.strs cfg.Branches)) := by
  constructor
  · intro h
    simp [renderData, List.lookup, h]
  · intro h
    have hl : cfg.Branches.length ≠ 0 := fun h0 => h (List.length_eq_zero.mp h0)
    simp [renderData, List.lookup, hl]

/-- Witness of C4: the sample job as a postsubmit, and a periodic job with branches. -/
theorem renderData_branches_witness :
    List.lookup "branches" (renderData exampleEnv "postsubmit" "foo" exampleJob) =
        some (Value.strs ["^main$"]) ∧
    List.lookup "branches"
        (renderData exampleEnv "periodic" "foo" { exampleJob with Branches := ["^release-.*$"] }) =
        some (Value.strs ["^release-.*$"]) :=
  ⟨(renderData_branches exampleEnv "postsubmit" "foo" exampleJob).1 rfl,
   (renderData_branches exampleEnv "periodic" "foo"
      { exampleJob with Branches := ["^release-.*$"] }).2 (by decide)⟩

/-- A word none of whose endings starts `standard...` or `minimal...` begins the
replaced text exactly when it begins the original one. -/
theorem isPrefixOf_replaceFirst (w : List Char)
    (hw : ∀ v, v <:+ w → v ≠ [] → ∀ rest,
      v.isPrefixOf (standardChars ++ rest) = false ∧ v.isPrefixOf (minimalChars ++ rest) = false)
    (t : List Char) :
    w.isPrefixOf (replaceFirst standardChars minimalChars t) = w.isPrefixOf t := by
  induction w generalizing t with
  | nil => simp
  | cons x w ih =>
    have ih' := ih (fun v hv hne rest => hw v (hv.trans (List.suffix_cons x w)) hne rest)
    cases t with
    | nil => simp [replaceFirst]
    | cons c t =>
      by_cases hp : standardChars.isPrefixOf (c :: t) = true
      · obtain ⟨rest, hrest⟩ := List.isPrefixOf_iff_prefix.mp hp
        have h1 := hw (x :: w) (List.suffix_refl _) (by simp) rest
        rw [replaceFirst, if_pos hp, ← hrest]
        rw [List.drop_left' (by rfl)]
        rw [h1.1, h1.2]
      · rw [replaceFirst, if_neg hp]
        simp only [List.isPrefixOf, ih']

/-- Replacing the first `standard` by `minimal` adds exactly one occurrence of
`minimal`. -/
theorem countOccurrences_replaceFirst (t : List Char) (h : standardChars <:+: t) :
    countOccurrences minimalChars (replaceFirst standardChars minimalChars t) =
      countOccurrences minimalChars t + 1 := by
  induction t with
  | nil => simp at h
  | cons c t ih =>
    by_cases hp : standardChars.isPrefixOf (c :: t) = true
    · obtain ⟨rest, hrest⟩ := List.isPrefixOf_iff_prefix.mp hp
      rw [replaceFirst, if_pos hp, ← hrest, List.drop_left' (by rfl)]
      simp [countOccurrences]
      omega
    · have ht : standardChars <:+: t := by
        rcases List.infix_cons_iff.mp h with h' | h'
        · exact absurd (List.isPrefixOf_iff_prefix.mpr h') hp
        · exact h'
      rw [replaceFirst, if_neg hp, countOccurrences, countOccurrences, ih ht]
      have key : minimalChars.isPrefixOf (c :: replaceFirst standardChars minimalChars t) =
          minimalChars.isPrefixOf (c :: t) := by
        have := isPrefixOf_replaceFirst ['i', 'n', 'i', 'm', 'a', 'l'] (by
          intro v hv hne rest
          simp only [List.suffix_cons_iff, List.suffix_nil] at hv
          rcases hv with rfl | rfl | rfl | rfl | rfl | rfl | rfl <;>
            first | exact absurd rfl hne | simp [List.isPrefixOf]) t
        simp only [List.isPrefixOf, this]
      rw [key]
      omega

/-- A word that does not occur has no occurrence position. -/
theorem countOccurrences_eq_zero (sub t : List Char) (h : ¬ sub <:+: t) :
    countOccurrences sub t = 0 := by
  induction t with
  | nil =>
    have : sub ≠ [] := fun h0 => h (h0 ▸ List.infix_refl _)
    simp [countOccurrences, this]
  | cons c t ih =>
    have h1 : ¬ sub <+: c :: t := fun hp => h hp.isInfix
    have h2 : ¬ sub <:+: t := fun hi => h (List.infix_cons hi)
    have h3 : sub.isPrefixOf (c :: t) = false := by
      cases hb : sub.isPrefixOf (c :: t) with
      | false => rfl
      | true => exact absurd (List.isPrefixOf_iff_prefix.mp hb) h1
    rw [countOccurrences, h3, ih h2]
    simp

/-- C5, as stated, fails: the builder base tag `minimal-standard` contains `standard`,
and with the minimal flag set the tag placed in the render context is
`minimal-minimal`, which contains `minimal` twice. -/
theorem renderData_builderBaseTag_twice :
    containsSubstring "standard" "minimal-standard" ∧
    List.lookup "builderBaseTag"
        (renderData { exampleEnv with builderBaseTag := "minimal-standard" } "presubmit" "foo"
          { exampleJob with UseMinimalBuilderBase := true }) =
      some (Value.str "minimal-minimal") ∧
    occurrences "minimal" "minimal-minimal" = 2 ∧
    occurrences "minimal" "minimal-minimal" ≠ 1 := by
  refine ⟨⟨"minimal-".data, [], by decide⟩, by decide, by decide, by decide⟩

/-- C5, amended: for a builder base tag that contains `standard` and a job with the
minimal flag set, the tag placed in the render context contains `minimal` exactly
once more than the builder base tag does; so exactly once when the builder base tag
does not contain `minimal`. -/
theorem renderData_builderBaseTag (env : Env) (jobType repoName : String) (cfg : JobConfig)
    (hflag : cfg.UseMinimalBuilderBase = true)
    (hstd : containsSubstring "standard" env.builderBaseTag) :
    ∃ tag, List.lookup "builderBaseTag" (renderData env jobType repoName cfg) =
        some (Value.str tag) ∧
      occurrences "minimal" tag = occurrences "minimal" env.builderBaseTag + 1 ∧
      (¬ containsSubstring "minimal" env.builderBaseTag → occurrences "minimal" tag = 1) := by
  refine ⟨stringsReplaceFirst env.builderBaseTag "standard" "minimal", ?_, ?_, ?_⟩
  · simp [renderData, List.lookup, hflag]
  · exact countOccurrences_replaceFirst env.builderBaseTag.data hstd
  · intro hno
    have h0 : occurrences "minimal" env.builderBaseTag = 0 :=
      countOccurrences_eq_zero _ _ hno
    have h1 : occurrences "minimal" (stringsReplaceFirst env.builderBaseTag "standard" "minimal")
        = occurrences "minimal" env.builderBaseTag + 1 :=
      countOccurrences_replaceFirst env.builderBaseTag.data hstd
    omega

/-- Witness of C5 (amended) at the builder base tag `standard-7`. -/
theorem renderData_builderBaseTag_witness :
    ∃ tag, List.lookup "builderBaseTag"
        (renderData exampleEnv "presubmit" "foo"
          { exampleJob with UseMinimalBuilderBase := true }) = some (Value.str tag) ∧
      occurrences "minimal" tag = occurrences "minimal" exampleEnv.builderBaseTag + 1 ∧
      (¬ containsSubstring "minimal" exampleEnv.builderBaseTag →
        occurrences "minimal" tag = 1) :=
  renderData_builderBaseTag exampleEnv "presubmit" "foo"
    { exampleJob with UseMinimalBuilderBase := true } rfl ⟨[], "-7".data, by decide⟩

/-- C6: a job that opts into buildx gets, in the render context, its configured
environment variables followed by `BUILDKITD_IMAGE` and then `USE_BUILDX` (the
configured list is kept as the beginning and the length grows by two); a job that does
not opt in gets its configured list unchanged. -/
theorem renderData_envVars (env : Env) (jobType repoName : String) (cfg : JobConfig) :
    (cfg.UseDockerBuildX = true →
      List.lookup "envVars" (renderData env jobType repoName cfg) =
        some (Value.envVars (cfg.EnvVars ++
          [{ Name := "BUILDKITD_IMAGE", Value := "moby/buildkit:v0.12.3-rootless" },
           { Name := "USE_BUILDX", Value := "true" }])) ∧
      cfg.EnvVars <+: cfg.EnvVars ++
          [{ Name := "BUILDKITD_IMAGE", Value := "moby/buildkit:v0.12.3-rootless" },
           ({ Name := "USE_BUILDX", Value := "true" } : EnvVar)] ∧
      (cfg.EnvVars ++
          [{ Name := "BUILDKITD_IMAGE", Value := "moby/buildkit:v0.12.3-rootless" },
           ({ Name := "USE_BUILDX", Value := "true" } : EnvVar)]).length =
        cfg.EnvVars.length + 2) ∧
    (cfg.UseDockerBuildX = false →
      List.lookup "envVars" (renderData env jobType repoName cfg) =
        some (Value.envVars cfg.EnvVars)) := by
  constructor
  · intro h
    refine ⟨?_, List.prefix_append _ _, by simp⟩
    simp [renderData, List.lookup, h, buildkitImageTag]
  · intro h
    simp [renderData, List.lookup, h]

/-- Witness of C6: the sample job with and without buildx. -/
theorem renderData_envVars_witness :
    List.lookup "envVars"
        (renderData exampleEnv "presubmit" "foo" { exampleJob with UseDockerBuildX := true }) =
      some (Value.envVars
        [{ Name := "GOFLAGS", Value := "-mod=mod" },
         { Name := "BUILDKITD_IMAGE", Value := "moby/buildkit:v0.12.3-rootless" },
         { Name := "USE_BUILDX", Value := "true" }]) ∧
    List.lookup "envVars" (renderData exampleEnv "presubmit" "foo" exampleJob) =
      some (Value.envVars [{ Name := "GOFLAGS", Value := "-mod=mod" }]) :=
  ⟨((renderData_envVars exampleEnv "presubmit" "foo"
      { exampleJob with UseDockerBuildX := true }).1 rfl).1,
   (renderData_envVars exampleEnv "presubmit" "foo" exampleJob).2 rfl⟩

/-! ## Template selection -/

/-- C7: `useTemplate` fails exactly for the kinds other than periodic, postsubmit and
presubmit; for these three it returns the periodic, postsubmit and presubmit template,
so every kind of `jobTypes` is accepted. -/
theorem useTemplate_kinds (env : Env) (k : String) :
    ((∃ e, useTemplate env k = .error e) ↔
      ¬ (k = "periodic" ∨ k = "postsubmit" ∨ k = "presubmit")) ∧
    useTemplate env "periodic" = .ok env.periodicTemplate ∧
    useTemplate env "postsubmit" = .ok env.postsubmitTemplate ∧
    useTemplate env "presubmit" = .ok env.presubmitTemplate ∧
    (∀ j ∈ jobTypes, ∃ t, useTemplate env j = .ok t) := by
  refine ⟨?_, by simp [useTemplate], by simp [useTemplate], by simp [useTemplate], ?_⟩
  · unfold useTemplate
    by_cases h1 : k = "periodic"
    · simp [h1]
    · by_cases h2 : k = "postsubmit"
      · simp [h2]
      · by_cases h3 : k = "presubmit"
        · simp [h3]
        · simp [h1, h2, h3]
  · intro j hj
    simp only [jobTypes, List.mem_cons, List.mem_singleton, List.not_mem_nil, or_false] at hj
    rcases hj with rfl | rfl | rfl <;> simp [useTemplate]

/-! ## The jobs folder -/

theorem fieldsAux_line (l cur : List Char) (h : ∀ c ∈ l, isSpace c = false)
    (hne : cur ++ l ≠ []) : fieldsAux cur (l ++ ['\n']) = [cur ++ l] := by
  induction l generalizing cur with
  | nil =>
    have hc : cur ≠ [] := by simpa using hne
    have hs : isSpace '\n' = true := by decide
    simp [fieldsAux, hs, hc]
  | cons c t ih =>
    have hcs : isSpace c = false := h c (List.mem_cons_self _ _)
    have := ih (cur ++ [c]) (fun x hx => h x (List.mem_cons_of_mem _ hx)) (by simp)
    simp [fieldsAux, hcs, this]

/-- For a root path without white space, followed by a newline, `getJobsFolderPath`
returns the root joined with `jobs`; it returns an error when the command fails. -/
theorem getJobsFolderPath_line (env : Env) (root : String) (hne : root ≠ "")
    (hns : ∀ c ∈ root.data, isSpace c = false) :
    (env.gitRevParse = .ok (root ++ "\n") →
      getJobsFolderPath env = .ok (filepathJoin [root, jobsFolder])) ∧
    (∀ e, env.gitRevParse = .error e →
      getJobsFolderPath env = .error (Fault.error ("error running the git command: " ++ e))) := by
  constructor
  · intro hout
    have hd : root.data ≠ [] := fun h0 => hne (String.ext h0)
    have hf : stringsFields (root ++ "\n") = [root] := by
      have h1 : (root ++ "\n").data = root.data ++ ['\n'] := by
        rw [String.data_append]
      have h2 := fieldsAux_line root.data [] hns (by simpa using hd)
      simp [stringsFields, h1, h2]
    simp [getJobsFolderPath, hout, hf]
  · intro e he
    simp [getJobsFolderPath, he]

/-- C10, at the git output `/home/my user/repo` followed by a newline: the code returns
`/home/my/jobs`, while the root path joined with `jobs` is `/home/my user/repo/jobs`. -/
theorem getJobsFolderPath_cuts_at_space :
    getJobsFolderPath { exampleEnv with gitRevParse := .ok "/home/my user/repo\n" } =
      .ok "/home/my/jobs" ∧
    filepathJoin ["/home/my user/repo", jobsFolder] = "/home/my user/repo/jobs" ∧
    "/home/my/jobs" ≠ "/home/my user/repo/jobs" := by
  refine ⟨by rfl, by decide, by decide⟩

/-! ## File-system operations -/

theorem resolve_congr (fs fs1 : FileSystem) (h : fs1.cwd = fs.cwd) (p : String) :
    fs1.resolve p = fs.resolve p := by
  simp [FileSystem.resolve, h]

/-- What a successful `mkdirAll` did. -/
theorem mkdirAll_ok {fs fs1 : FileSystem} {p : String} (h : fs.mkdirAll p = .ok fs1) :
    fs1.cwd = fs.cwd ∧
    (∀ k, k <+: fs.resolve p → fs.isFile k = false) ∧
    fs1.node = (fun k =>
      if k.isPrefixOf (fs.resolve p) ∧ fs.node k = none then some Node.dir else fs.node k) := by
  unfold FileSystem.mkdirAll at h
  split at h
  · cases h
  · dsimp only at h
    split at h
    · cases h
    · rename_i hany
      cases h
      refine ⟨rfl, ?_, rfl⟩
      intro k hk
      cases hf : fs.isFile k with
      | false => rfl
      | true =>
        exact absurd (List.any_eq_true.mpr ⟨k, (List.mem_inits _ _).mpr hk, hf⟩) hany

/-- What a successful `writeFile` did. -/
theorem writeFile_ok {fs fs2 : FileSystem} {p content : String}
    (h : fs.writeFile p content = .ok fs2) :
    fs2.cwd = fs.cwd ∧ fs.resolve p ≠ [] ∧ fs.isDir (fs.resolve p) = false ∧
    fs2.node = (fun k => if k = fs.resolve p then some (Node.file content) else fs.node k) := by
  unfold FileSystem.writeFile at h
  split at h
  · cases h
  · dsimp only at h
    split at h
    · cases h
    · rename_i hk
      split at h
      · cases h
        refine ⟨rfl, fun h0 => hk (Or.inl h0), ?_, rfl⟩
        cases hd : fs.isDir (fs.resolve p) with
        | false => rfl
        | true => exact absurd (Or.inr hd) hk
      · split at h <;> cases h

/-- After a successful `mkdirAll`, the named directory and all its ancestors exist. -/
theorem mkdirAll_isDir {fs fs1 : FileSystem} {p : String} (h : fs.mkdirAll p = .ok fs1)
    (k : List String) (hk : k <+: fs.resolve p) : fs1.isDir k = true := by
  obtain ⟨_, hfile, hnode⟩ := mkdirAll_ok h
  have hf := hfile k hk
  have hpre : k.isPrefixOf (fs.resolve p) = true := List.isPrefixOf_iff_prefix.mpr hk
  by_cases h0 : k = []
  · simp [FileSystem.isDir, FileSystem.stat, h0]
  · simp only [FileSystem.isFile, FileSystem.stat, if_neg h0] at hf
    simp only [FileSystem.isDir, FileSystem.stat, if_neg h0, hnode, hpre, true_and]
    cases hn : fs.node k with
    | none => simp
    | some n =>
      cases n with
      | dir => simp
      | file c => simp [hn] at hf

/-! ## Paths are never empty -/

theorem cleanStack_ne_empty (rooted : Bool) (comps stack : List String)
    (h : ∀ s ∈ stack, s ≠ "") : ∀ s ∈ cleanStack rooted stack comps, s ≠ "" := by
  induction comps generalizing stack with
  | nil => simpa [cleanStack] using h
  | cons c cs ih =>
    have hpush : c ≠ "" → ∀ s ∈ stack ++ [c], s ≠ "" := by
      intro hc s hs
      rcases List.mem_append.mp hs with hs | hs
      · exact h s hs
      · rw [List.mem_singleton.mp hs]; exact hc
    have hpop : ∀ s ∈ stack.dropLast, s ≠ "" :=
      fun s hs => h s (List.dropLast_subset _ hs)
    unfold cleanStack
    split
    · exact ih stack h
    · rename_i hc
      have hc' : c ≠ "" := fun h0 => hc (Or.inl h0)
      split
      · split
        · split
          · exact ih _ (hpush hc')
          · exact ih _ hpop
        · split
          · exact ih stack h
          · exact ih _ (hpush hc')
      · exact ih _ (hpush hc')

theorem foldl_join_length (sep : String) (rest : List String) (e : String) :
    e.length ≤ (rest.foldl (fun acc x => acc ++ sep ++ x) e).length := by
  induction rest generalizing e with
  | nil => simp
  | cons x xs ih =>
    have := ih (e ++ sep ++ x)
    simp only [List.foldl_cons]
    simp only [String.length_append] at this
    omega

theorem length_pos_of_ne_empty (s : String) (h : s ≠ "") : 0 < s.length := by
  have : s.data ≠ [] := fun h0 => h (String.ext h0)
  exact List.length_pos.mpr this

theorem ne_empty_of_length_pos (s : String) (h : 0 < s.length) : s ≠ "" := by
  intro h0
  rw [h0] at h
  exact absurd h (by decide)

theorem filepathClean_ne_empty (p : String) : filepathClean p ≠ "" := by
  unfold filepathClean
  simp only
  split
  · apply ne_empty_of_length_pos
    rw [String.length_append]
    have : "/".length = 1 := by decide
    omega
  · split
    · decide
    · rename_i hstack
      have hall := cleanStack_ne_empty (isRooted p) (splitSlash p) [] (by simp)
      cases hs : cleanStack (isRooted p) [] (splitSlash p) with
      | nil => exact absurd hs hstack
      | cons e rest =>
        have he : e ≠ "" := hall e (by rw [hs]; exact List.mem_cons_self _ _)
        apply ne_empty_of_length_pos
        have h1 := length_pos_of_ne_empty e he
        have h2 := foldl_join_length "/" rest e
        simp only [stringsJoin]
        omega

theorem filepathJoin_ne_empty (l : List String) (h : ∃ e ∈ l, e ≠ "") :
    filepathJoin l ≠ "" := by
  induction l with
  | nil => simp at h
  | cons e rest ih =>
    unfold filepathJoin
    split
    · rename_i he
      apply ih
      obtain ⟨x, hx, hne⟩ := h
      rcases List.mem_cons.mp hx with hx | hx
      · exact absurd (hx ▸ he) hne
      · exact ⟨x, hx, hne⟩
    · exact filepathClean_ne_empty _

/-! ## Splitting and joining paths -/

theorem splitSlashAux_ne_nil (l cur : List Char) : splitSlashAux cur l ≠ [] := by
  induction l generalizing cur with
  | nil => simp [splitSlashAux]
  | cons c t ih =>
    unfold splitSlashAux
    split
    · simp
    · exact ih _

theorem splitSlashAux_noSlash (l cur : List Char) (h : '/' ∉ cur) :
    ∀ w ∈ splitSlashAux cur l, '/' ∉ w := by
  induction l generalizing cur with
  | nil => simpa [splitSlashAux] using h
  | cons c t ih =>
    unfold splitSlashAux
    split
    · intro w hw
      rcases List.mem_cons.mp hw with rfl | hw
      · exact h
      · exact ih [] (by simp) w hw
    · rename_i hc
      apply ih
      intro hm
      rcases List.mem_append.mp hm with hm | hm
      · exact h hm
      · exact hc (List.mem_singleton.mp hm).symm

theorem splitSlashAux_append (w rest cur : List Char) (h : '/' ∉ w) :
    splitSlashAux cur (w ++ rest) = splitSlashAux (cur ++ w) rest := by
  induction w generalizing cur with
  | nil => simp
  | cons c t ih =>
    have hc : c ≠ '/' := fun h0 => h (h0 ▸ List.mem_cons_self _ _)
    have ht : '/' ∉ t := fun h0 => h (List.mem_cons_of_mem _ h0)
    show splitSlashAux cur (c :: (t ++ rest)) = _
    rw [splitSlashAux, if_neg hc, ih _ ht]
    simp

theorem foldl_join_data (rest : List String) (e : String) :
    (rest.foldl (fun acc x => acc ++ "/" ++ x) e).data = e.data ++ tailChars rest := by
  induction rest generalizing e with
  | nil => simp [tailChars]
  | cons x xs ih =>
    simp only [List.foldl_cons, ih, String.data_append, tailChars]
    have : "/".data = ['/'] := rfl
    simp [this]

theorem splitSlashAux_tailChars (rest : List String) (cur : List Char)
    (h : ∀ x ∈ rest, '/' ∉ x.data) :
    splitSlashAux cur (tailChars rest) = cur :: rest.map String.data := by
  induction rest generalizing cur with
  | nil => simp [tailChars, splitSlashAux]
  | cons x xs ih =>
    have hx : '/' ∉ x.data := h x (List.mem_cons_self _ _)
    have hxs : ∀ y ∈ xs, '/' ∉ y.data := fun y hy => h y (List.mem_cons_of_mem _ hy)
    simp only [tailChars, splitSlashAux, if_true]
    rw [splitSlashAux_append _ _ _ hx, ih _ hxs]
    simp

theorem map_mk_data (l : List String) : (l.map String.data).map String.mk = l := by
  induction l with
  | nil => rfl
  | cons x xs ih => simp [ih]

theorem map_mk_comp (l : List String) : l.map (String.mk ∘ String.data) = l := by
  induction l with
  | nil => rfl
  | cons x xs ih => simp [ih]

/-- Splitting a `/`-joined list of elements without `/` gives the elements back. -/
theorem splitSlash_join (e : String) (rest : List String)
    (h : ∀ x ∈ e :: rest, '/' ∉ x.data) :
    splitSlash (stringsJoin (e :: rest) "/") = e :: rest := by
  have he : '/' ∉ e.data := h e (List.mem_cons_self _ _)
  have hr : ∀ y ∈ rest, '/' ∉ y.data := fun y hy => h y (List.mem_cons_of_mem _ hy)
  have h1 : (stringsJoin (e :: rest) "/").data = e.data ++ tailChars rest := by
    simp only [stringsJoin, foldl_join_data]
  unfold splitSlash
  rw [h1, splitSlashAux_append _ _ _ he, splitSlashAux_tailChars _ _ hr]
  simp [map_mk_comp]

/-- Splitting `/` followed by a `/`-joined list gives an empty element, then the list. -/
theorem splitSlash_slash_join (e : String) (rest : List String)
    (h : ∀ x ∈ e :: rest, '/' ∉ x.data) :
    splitSlash ("/" ++ stringsJoin (e :: rest) "/") = "" :: e :: rest := by
  have he : '/' ∉ e.data := h e (List.mem_cons_self _ _)
  have hr : ∀ y ∈ rest, '/' ∉ y.data := fun y hy => h y (List.mem_cons_of_mem _ hy)
  have h1 : ("/" ++ stringsJoin (e :: rest) "/").data = '/' :: (e.data ++ tailChars rest) := by
    simp only [String.data_append, stringsJoin, foldl_join_data]
    rfl
  unfold splitSlash
  rw [h1, splitSlashAux, if_pos rfl, splitSlashAux_append _ _ _ he,
    splitSlashAux_tailChars _ _ hr]
  simp [map_mk_comp]

/-! ## The element stack of a cleaned path -/

theorem cleanShape_nil (r : Bool) : CleanShape r [] :=
  ⟨0, [], rfl, fun _ h => absurd h (List.not_mem_nil _), fun _ => rfl⟩

theorem cleanShape_push_name {r : Bool} {S : List String} {c : String}
    (h : CleanShape r S) (hc : IsName c) : CleanShape r (S ++ [c]) := by
  obtain ⟨n, names, hS, hn, hr⟩ := h
  refine ⟨n, names ++ [c], by rw [hS, List.append_assoc], ?_, hr⟩
  intro x hx
  rcases List.mem_append.mp hx with hx | hx
  · exact hn x hx
  · rw [List.mem_singleton.mp hx]; exact hc

theorem cleanShape_dropLast {r : Bool} {S : List String} (h : CleanShape r S) :
    CleanShape r S.dropLast := by
  obtain ⟨n, names, hS, hn, hr⟩ := h
  rcases List.eq_nil_or_concat names with h0 | ⟨init, l, h1⟩
  · subst h0
    refine ⟨n - 1, [], ?_, fun _ hx => absurd hx (List.not_mem_nil _), fun hrt => by
      rw [hr hrt]⟩
    rw [hS]
    cases n with
    | zero => rfl
    | succ k => simp [List.replicate_succ']
  · rw [List.concat_eq_append] at h1
    subst h1
    refine ⟨n, init, ?_, fun x hx => hn x (List.mem_append_left _ hx), hr⟩
    rw [hS, ← List.append_assoc, List.dropLast_concat]

/-- A clean stack whose last element is `..` consists of `..` elements only, and its
path is not rooted. -/
theorem cleanShape_last_dots {r : Bool} {S : List String} (h : CleanShape r S)
    (hl : S.getLast? = some "..") : r = false ∧ ∃ n, S = List.replicate (n + 1) ".." := by
  obtain ⟨n, names, hS, hn, hr⟩ := h
  rcases List.eq_nil_or_concat names with h0 | ⟨init, l, h1⟩
  · subst h0
    cases n with
    | zero => simp [hS] at hl
    | succ k =>
      refine ⟨?_, k, by simpa using hS⟩
      cases r with
      | false => rfl
      | true => exact absurd (hr rfl) (by simp)
  · rw [List.concat_eq_append] at h1
    subst h1
    rw [hS, ← List.append_assoc, List.getLast?_concat] at hl
    have hname := hn l (by simp)
    exact absurd (Option.some.inj hl) hname.2.2.1

theorem cleanStack_shape (r : Bool) (comps stack : List String)
    (hc : ∀ c ∈ comps, '/' ∉ c.data) (h : CleanShape r stack) :
    CleanShape r (cleanStack r stack comps) := by
  induction comps generalizing stack with
  | nil => simpa [cleanStack] using h
  | cons c cs ih =>
    have hcs : ∀ x ∈ cs, '/' ∉ x.data := fun x hx => hc x (List.mem_cons_of_mem _ hx)
    have hslash : '/' ∉ c.data := hc c (List.mem_cons_self _ _)
    unfold cleanStack
    split
    · exact ih stack hcs h
    · rename_i hne
      have h1 : c ≠ "" := fun h0 => hne (Or.inl h0)
      have h2 : c ≠ "." := fun h0 => hne (Or.inr h0)
      split
      · rename_i hdd
        split
        · rename_i top htop
          split
          · rename_i hdots
            rw [hdots] at htop
            obtain ⟨hr, n, hS⟩ := cleanShape_last_dots h htop
            apply ih _ hcs
            refine ⟨n + 2, [], ?_, fun _ hx => absurd hx (List.not_mem_nil _), fun hrt => by
              rw [hr] at hrt; cases hrt⟩
            rw [hS, hdd, List.append_nil, ← List.replicate_succ']
          · exact ih _ hcs (cleanShape_dropLast h)
        · rename_i hnone
          split
          · exact ih stack hcs h
          · rename_i hr
            apply ih _ hcs
            have hS : stack = [] := List.getLast?_eq_none_iff.mp hnone
            refine ⟨1, [], by rw [hS, hdd]; rfl, fun _ hx => absurd hx (List.not_mem_nil _),
              fun hrt => absurd hrt hr⟩
      · rename_i hdd
        exact ih _ hcs (cleanShape_push_name h ⟨h1, h2, hdd, hslash⟩)

/-- Names are pushed on the stack one after the other. -/
theorem cleanStack_names (r : Bool) (names A rest : List String)
    (h : ∀ c ∈ names, IsName c) :
    cleanStack r A (names ++ rest) = cleanStack r (A ++ names) rest := by
  induction names generalizing A with
  | nil => simp
  | cons c cs ih =>
    obtain ⟨h1, h2, h3, _⟩ := h c (List.mem_cons_self _ _)
    have hcs : ∀ x ∈ cs, IsName x := fun x hx => h x (List.mem_cons_of_mem _ hx)
    show cleanStack r A (c :: (cs ++ rest)) = _
    rw [cleanStack, if_neg (by simp [h1, h2]), if_neg h3, ih _ hcs]
    simp

/-- Leading `..` elements of a path that is not rooted are pushed on the stack. -/
theorem cleanStack_dots (n k : Nat) (rest : List String) :
    cleanStack false (List.replicate k "..") (List.replicate n ".." ++ rest) =
      cleanStack false (List.replicate (k + n) "..") rest := by
  induction n generalizing k with
  | zero => simp
  | succ m ih =>
    show cleanStack false (List.replicate k "..") (".." :: (List.replicate m ".." ++ rest)) = _
    have hpush : List.replicate k ".." ++ [".."] = List.replicate (k + 1) ".." :=
      (List.replicate_succ' ..).symm
    rw [cleanStack, if_neg (by decide), if_pos rfl]
    cases k with
    | zero =>
      simp only [List.replicate_zero, List.getLast?_nil, List.nil_append]
      have := ih 1
      simp only [List.replicate_one] at this
      simp only [Bool.false_eq_true, if_false]
      rw [this]
      congr 2
      omega
    | succ j =>
      have hl : (List.replicate (j + 1) "..").getLast? = some ".." := by
        rw [List.replicate_succ', List.getLast?_concat]
      simp only [hl, if_true]
      rw [hpush, ih (j + 1 + 1)]
      congr 2
      omega

/-- Cleaning the elements of a clean stack, followed by an empty element, gives the
stack back. -/
theorem cleanStack_clean (r : Bool) (T : List String) (h : CleanShape r T) :
    cleanStack r [] (T ++ [""]) = T := by
  obtain ⟨n, names, hT, hn, hr⟩ := h
  have hend : ∀ A, cleanStack r A [""] = A := by
    intro A
    simp [cleanStack]
  cases r with
  | true =>
    have h0 : n = 0 := hr rfl
    subst h0
    simp only [List.replicate_zero, List.nil_append] at hT
    rw [hT, cleanStack_names true names [] [""] hn, hend]
    simp
  | false =>
    rw [hT, List.append_assoc]
    have := cleanStack_dots n 0 (names ++ [""])
    simp only [List.replicate_zero, Nat.zero_add] at this
    rw [this, cleanStack_names false names _ [""] hn, hend]

/-! ## The directory part of a path -/

theorem splitSlashAux_noSlash_eq (l cur : List Char) (h : '/' ∉ l) :
    splitSlashAux cur l = [cur ++ l] := by
  have := splitSlashAux_append l [] cur h
  simpa [splitSlashAux] using this

theorem contains_slash (t : List Char) : t.contains '/' = true ↔ '/' ∈ t := by
  simp

theorem dirPart_noSlash (l : List Char) (h : '/' ∉ l) : dirPart l = [] := by
  cases l with
  | nil => rfl
  | cons c t =>
    have hc : c ≠ '/' := fun h0 => h (h0 ▸ List.mem_cons_self _ _)
    have ht : t.contains '/' = false := by
      cases hb : t.contains '/' with
      | false => rfl
      | true => exact absurd (List.mem_cons_of_mem _ ((contains_slash _).mp hb)) h
    rw [dirPart, ht]
    simp [hc]

theorem splitSlashAux_dirPart (l cur : List Char) (h : '/' ∈ l) :
    splitSlashAux cur (dirPart l) = (splitSlashAux cur l).dropLast ++ [[]] := by
  induction l generalizing cur with
  | nil => simp at h
  | cons c t ih =>
    by_cases ht : t.contains '/' = true
    · have hmem : '/' ∈ t := (contains_slash _).mp ht
      rw [dirPart, if_pos ht]
      by_cases hc : c = '/'
      · rw [splitSlashAux, if_pos hc, splitSlashAux, if_pos hc, ih [] hmem,
          List.dropLast_cons_of_ne_nil (splitSlashAux_ne_nil _ _)]
        simp
      · rw [splitSlashAux, if_neg hc, splitSlashAux, if_neg hc, ih _ hmem]
    · have hno : '/' ∉ t := fun hm => ht ((contains_slash _).mpr hm)
      have hc : c = '/' := by
        rcases List.mem_cons.mp h with h0 | h0
        · exact h0.symm
        · exact absurd h0 hno
      subst hc
      have h1 : splitSlashAux cur ('/' :: t) = [cur, t] := by
        rw [splitSlashAux, if_pos rfl, splitSlashAux_noSlash_eq t [] hno]
        simp
      have h2 : dirPart ('/' :: t) = ['/'] := by
        rw [dirPart, if_neg ht, if_pos rfl]
      rw [h1, h2]
      simp [splitSlashAux]

/-- The elements of the directory part are those of the path, the last one emptied. -/
theorem splitSlash_dirPart (p : String) :
    splitSlash ⟨dirPart p.data⟩ = (splitSlash p).dropLast ++ [""] := by
  unfold splitSlash
  by_cases h : '/' ∈ p.data
  · rw [splitSlashAux_dirPart _ _ h]
    simp [List.map_dropLast]
  · rw [dirPart_noSlash _ h, splitSlashAux_noSlash_eq _ _ h]
    simp [splitSlashAux]

theorem isRooted_dirPart (p : String) : isRooted ⟨dirPart p.data⟩ = isRooted p := by
  unfold isRooted
  cases hp : p.data with
  | nil => simp [dirPart]
  | cons c t =>
    simp only [dirPart]
    by_cases ht : '/' ∈ t
    · simp [ht]
    · by_cases hc : c = '/'
      · simp [ht, hc]
      · simp [ht, hc]

/-! ## Resolving cleaned paths -/

theorem walk_append (xs ys b : List String) :
    FileSystem.walk b (xs ++ ys) = FileSystem.walk (FileSystem.walk b xs) ys := by
  induction xs generalizing b with
  | nil => simp [FileSystem.walk]
  | cons c cs ih =>
    show FileSystem.walk b (c :: (cs ++ ys)) = _
    rw [FileSystem.walk, FileSystem.walk]
    split
    · exact ih b
    · split
      · exact ih _
      · exact ih _

theorem splitSlash_noSlash (s : String) : ∀ c ∈ splitSlash s, '/' ∉ c.data := by
  intro c hc
  unfold splitSlash at hc
  obtain ⟨w, hw, rfl⟩ := List.mem_map.mp hc
  exact splitSlashAux_noSlash s.data [] (by simp) w hw

/-- The element stack of `filepath.Clean` has the clean form. -/
theorem cleanStack_splitSlash (s : String) :
    CleanShape (isRooted s) (cleanStack (isRooted s) [] (splitSlash s)) :=
  cleanStack_shape _ _ _ (splitSlash_noSlash s) (cleanShape_nil _)

theorem cleanShape_noSlash {r : Bool} {S : List String} (h : CleanShape r S) :
    ∀ x ∈ S, '/' ∉ x.data := by
  obtain ⟨n, names, hS, hn, _⟩ := h
  intro x hx
  rw [hS] at hx
  rcases List.mem_append.mp hx with hx | hx
  · rw [(List.mem_replicate.mp hx).2]
    decide
  · exact (hn x hx).2.2.2

theorem cleanShape_head {e : String} {rest : List String}
    (h : CleanShape false (e :: rest)) : isRooted e = false := by
  have hs : '/' ∉ e.data := cleanShape_noSlash h e (List.mem_cons_self _ _)
  unfold isRooted
  cases he : e.data with
  | nil => rfl
  | cons c t =>
    have : c ≠ '/' := fun h0 => hs (by rw [he, h0]; exact List.mem_cons_self _ _)
    simp [this]

theorem isRooted_join (e : String) (rest : List String) :
    isRooted (stringsJoin (e :: rest) "/") = isRooted e ∨ e = "" := by
  by_cases he : e = ""
  · exact Or.inr he
  · left
    have hd : e.data ≠ [] := fun h0 => he (String.ext h0)
    unfold isRooted
    simp only [stringsJoin, foldl_join_data]
    cases hdata : e.data with
    | nil => exact absurd hdata hd
    | cons c t => rfl

/-- The elements and the rootedness of a cleaned path, from its element stack. -/
theorem filepathClean_split (s : String) :
    isRooted (filepathClean s) = isRooted s ∧
    splitSlash (filepathClean s) =
      (if isRooted s = true then
        (if cleanStack (isRooted s) [] (splitSlash s) = [] then ["", ""]
         else "" :: cleanStack (isRooted s) [] (splitSlash s))
       else
        (if cleanStack (isRooted s) [] (splitSlash s) = [] then ["."]
         else cleanStack (isRooted s) [] (splitSlash s))) := by
  have hshape := cleanStack_splitSlash s
  unfold filepathClean
  simp only
  cases hr : isRooted s with
  | true =>
    simp only [if_true]
    constructor
    · unfold isRooted
      rw [String.data_append]
      rfl
    · cases hS : cleanStack true [] (splitSlash s) with
      | nil => decide
      | cons e rest =>
        rw [hr, hS] at hshape
        rw [if_neg (by simp)]
        exact splitSlash_slash_join e rest (cleanShape_noSlash hshape)
  | false =>
    simp only [Bool.false_eq_true, if_false]
    cases hS : cleanStack false [] (splitSlash s) with
    | nil => exact ⟨by decide, by decide⟩
    | cons e rest =>
      rw [hr, hS] at hshape
      rw [if_neg (by simp), if_neg (by simp)]
      refine ⟨?_, splitSlash_join e rest (cleanShape_noSlash hshape)⟩
      rcases isRooted_join e rest with h | h
      · rw [h]; exact cleanShape_head hshape
      · have := cleanShape_noSlash hshape
        obtain ⟨n, names, hS', hn, _⟩ := hshape
        exfalso
        cases n with
        | zero =>
          simp only [List.replicate_zero, List.nil_append] at hS'
          exact (hn e (by rw [← hS']; exact List.mem_cons_self _ _)).1 h
        | succ k =>
          rw [List.replicate_succ, List.cons_append] at hS'
          have := (List.cons.inj hS').1
          rw [h] at this
          exact absurd this (by decide)

/-- The key of a cleaned path, from its element stack. -/
theorem resolveFrom_clean (s : String) (cwd : List String) :
    FileSystem.resolveFrom cwd (filepathClean s) =
      FileSystem.walk (if isRooted s = true then [] else cwd)
        (cleanStack (isRooted s) [] (splitSlash s)) := by
  obtain ⟨h1, h2⟩ := filepathClean_split s
  unfold FileSystem.resolveFrom
  rw [h1, h2]
  cases hr : isRooted s with
  | true =>
    simp only [if_true]
    split
    · rename_i h0
      rw [h0]
      simp [FileSystem.walk]
    · simp [FileSystem.walk]
  | false =>
    simp only [Bool.false_eq_true, if_false]
    split
    · rename_i h0
      rw [h0]
      simp [FileSystem.walk]
    · rfl

/-- The key of the directory of a cleaned path: the element stack without its last
element. -/
theorem resolveFrom_dir_clean (s : String) (cwd : List String) :
    FileSystem.resolveFrom cwd (filepathDir (filepathClean s)) =
      FileSystem.walk (if isRooted s = true then [] else cwd)
        (cleanStack (isRooted s) [] (splitSlash s)).dropLast := by
  obtain ⟨h1, h2⟩ := filepathClean_split s
  have hshape := cleanShape_dropLast (cleanStack_splitSlash s)
  have hclean := cleanStack_clean _ _ hshape
  unfold filepathDir
  rw [resolveFrom_clean, isRooted_dirPart, h1, splitSlash_dirPart, h2]
  congr 1
  cases hr : isRooted s with
  | true =>
    rw [hr] at hclean
    simp only [if_true]
    split
    · rename_i h0
      rw [h0]
      simp [cleanStack]
    · rename_i h0
      rw [List.dropLast_cons_of_ne_nil h0, List.cons_append, cleanStack, if_pos (Or.inl rfl)]
      exact hclean
  | false =>
    rw [hr] at hclean
    simp only [Bool.false_eq_true, if_false]
    split
    · rename_i h0
      rw [h0]
      simp [cleanStack]
    · exact hclean

/-! ## A path and its directory -/

/-- The last element of a clean stack, if any, is a name or `..`. -/
theorem cleanShape_last {r : Bool} {S : List String} (h : CleanShape r S) :
    S = [] ∨ (∃ S' x, S = S' ++ [x] ∧ IsName x) ∨ (∃ S', S = S' ++ [".."]) := by
  obtain ⟨n, names, hS, hn, _⟩ := h
  rcases List.eq_nil_or_concat names with h0 | ⟨init, l, h1⟩
  · subst h0
    cases n with
    | zero => exact Or.inl (by simpa using hS)
    | succ k =>
      exact Or.inr (Or.inr ⟨List.replicate k "..", by
        rw [hS, List.append_nil, List.replicate_succ']⟩)
  · rw [List.concat_eq_append] at h1
    subst h1
    exact Or.inr (Or.inl ⟨List.replicate n ".." ++ init, l, by rw [hS, List.append_assoc],
      hn l (by simp)⟩)

theorem walk_name (b : List String) (x : String) (h : IsName x) :
    FileSystem.walk b [x] = b ++ [x] := by
  obtain ⟨h1, h2, h3, _⟩ := h
  simp [FileSystem.walk, h1, h2, h3]

theorem walk_dots (b : List String) : FileSystem.walk b [".."] = b.dropLast := by
  simp [FileSystem.walk]

theorem namesFile_of_last (X : List String) (x : String) :
    (match (X ++ [x]).getLast? with
      | some c => decide (c ≠ "" ∧ c ≠ "." ∧ c ≠ "..")
      | none => false) = decide (x ≠ "" ∧ x ≠ "." ∧ x ≠ "..") := by
  rw [List.getLast?_concat]

/-- A cleaned path either ends in a file name, and then its key is the key of its
directory followed by that name, or it does not, and then its key is the key of its
directory or of an ancestor of its directory. -/
theorem filepathClean_cases (s : String) (cwd : List String) :
    (namesFile (filepathClean s) = true ∧
      ∃ name, FileSystem.resolveFrom cwd (filepathClean s) =
        FileSystem.resolveFrom cwd (filepathDir (filepathClean s)) ++ [name]) ∨
    (namesFile (filepathClean s) = false ∧
      FileSystem.resolveFrom cwd (filepathClean s) <+:
        FileSystem.resolveFrom cwd (filepathDir (filepathClean s))) := by
  have hshape := cleanStack_splitSlash s
  obtain ⟨_, hsplit⟩ := filepathClean_split s
  rw [resolveFrom_clean, resolveFrom_dir_clean]
  unfold namesFile
  rw [hsplit]
  rcases cleanShape_last hshape with h0 | ⟨S', x, hS, hx⟩ | ⟨S', hS⟩
  · right
    rw [h0]
    refine ⟨?_, List.prefix_refl _⟩
    cases isRooted s <;> simp
  · left
    have hne : S' ++ [x] ≠ [] := by simp
    have hdec : decide (x ≠ "" ∧ x ≠ "." ∧ x ≠ "..") = true :=
      decide_eq_true ⟨hx.1, hx.2.1, hx.2.2.1⟩
    rw [hS]
    refine ⟨?_, x, ?_⟩
    · cases isRooted s with
      | true =>
        simp only [if_true, if_neg hne]
        rw [← List.cons_append, namesFile_of_last, hdec]
      | false =>
        simp only [Bool.false_eq_true, if_false, if_neg hne]
        rw [namesFile_of_last, hdec]
    · rw [walk_append, walk_name _ _ hx, List.dropLast_concat]
  · right
    have hne : S' ++ [".."] ≠ [] := by simp
    rw [hS]
    refine ⟨?_, ?_⟩
    · cases isRooted s with
      | true =>
        simp only [if_true, if_neg hne]
        rw [← List.cons_append, namesFile_of_last]
        decide
      | false =>
        simp only [Bool.false_eq_true, if_false, if_neg hne]
        rw [namesFile_of_last]
        decide
    · rw [walk_append, walk_dots, List.dropLast_concat]
      exact List.dropLast_prefix _

/-- The result of `filepath.Join` is empty or a cleaned path. -/
theorem filepathJoin_empty_or_clean (l : List String) :
    filepathJoin l = "" ∨ ∃ s, filepathJoin l = filepathClean s := by
  induction l with
  | nil => exact Or.inl rfl
  | cons e rest ih =>
    unfold filepathJoin
    split
    · exact ih
    · exact Or.inr ⟨_, rfl⟩

/-- The statement of `filepathClean_cases` for the result of `filepath.Join`. -/
theorem filepathJoin_cases (l : List String) (cwd : List String) :
    (namesFile (filepathJoin l) = true ∧
      ∃ name, FileSystem.resolveFrom cwd (filepathJoin l) =
        FileSystem.resolveFrom cwd (filepathDir (filepathJoin l)) ++ [name]) ∨
    (namesFile (filepathJoin l) = false ∧
      FileSystem.resolveFrom cwd (filepathJoin l) <+:
        FileSystem.resolveFrom cwd (filepathDir (filepathJoin l))) := by
  rcases filepathJoin_empty_or_clean l with h | ⟨s, h⟩
  · right
    rw [h]
    have h1 : filepathDir "" = "." := by decide
    have h2 : namesFile "" = false := by decide
    have h3 : FileSystem.resolveFrom cwd "" = cwd := by
      have : isRooted "" = false := by decide
      have hs : splitSlash "" = [""] := by decide
      simp [FileSystem.resolveFrom, this, hs, FileSystem.walk]
    have h4 : FileSystem.resolveFrom cwd "." = cwd := by
      have : isRooted "." = false := by decide
      have hs : splitSlash "." = ["."] := by decide
      simp [FileSystem.resolveFrom, this, hs, FileSystem.walk]
    rw [h1, h2, h3, h4]
    exact ⟨rfl, List.prefix_refl _⟩
  · rw [h]
    exact filepathClean_cases s cwd

theorem filepathDir_ne_empty (p : String) : filepathDir p ≠ "" :=
  filepathClean_ne_empty _

/-- When `GenerateProwjob` gets through its two file-system steps: exactly when the
path ends in a file name, no proper ancestor of it is a regular file, and it is not a
directory. -/
theorem mkdirAll_writeFile_ok (fs : FileSystem) (l : List String) (bytes : String) :
    (∃ fs1 fs2, fs.mkdirAll (filepathDir (filepathJoin l)) = .ok fs1 ∧
      fs1.writeFile (filepathJoin l) bytes = .ok fs2) ↔
    (namesFile (filepathJoin l) = true ∧
      (∀ k, k <+: (fs.resolve (filepathJoin l)).dropLast → fs.isFile k = false) ∧
      fs.isDir (fs.resolve (filepathJoin l)) = false) := by
  constructor
  · rintro ⟨fs1, fs2, hmk, hwr⟩
    obtain ⟨hcwd1, hfiles, hnode1⟩ := mkdirAll_ok hmk
    obtain ⟨_, hkey, hnotdir, _⟩ := writeFile_ok hwr
    rw [resolve_congr fs fs1 hcwd1] at hkey hnotdir
    rcases filepathJoin_cases l fs.cwd with ⟨hn, name, hname⟩ | ⟨_, hpre⟩
    · have hdrop : (fs.resolve (filepathJoin l)).dropLast =
          fs.resolve (filepathDir (filepathJoin l)) := by
        simp only [FileSystem.resolve, hname, List.dropLast_concat]
      refine ⟨hn, ?_, ?_⟩
      · intro k hk
        rw [hdrop] at hk
        exact hfiles k hk
      · cases hd : fs.isDir (fs.resolve (filepathJoin l)) with
        | false => rfl
        | true =>
          exfalso
          have hnode : fs.node (fs.resolve (filepathJoin l)) = some Node.dir := by
            simp only [FileSystem.isDir, FileSystem.stat, if_neg hkey] at hd
            split at hd
            · assumption
            · cases hd
          have : fs1.isDir (fs.resolve (filepathJoin l)) = true := by
            simp [FileSystem.isDir, FileSystem.stat, hkey, hnode1, hnode]
          rw [this] at hnotdir
          cases hnotdir
    · exfalso
      have := mkdirAll_isDir hmk (fs.resolve (filepathJoin l)) hpre
      rw [this] at hnotdir
      cases hnotdir
  · rintro ⟨hn, hfiles, hnotdir⟩
    rcases filepathJoin_cases l fs.cwd with ⟨_, name, hname⟩ | ⟨hn', _⟩
    · have hkeyeq : fs.resolve (filepathJoin l) =
          fs.resolve (filepathDir (filepathJoin l)) ++ [name] := hname
      have hdrop : (fs.resolve (filepathJoin l)).dropLast =
          fs.resolve (filepathDir (filepathJoin l)) := by
        rw [hkeyeq, List.dropLast_concat]
      have hP : filepathJoin l ≠ "" := by
        intro h0
        rw [h0] at hn
        exact absurd hn (by decide)
      have hany : ¬ ((fs.resolve (filepathDir (filepathJoin l))).inits.any fs.isFile = true) := by
        intro hany
        obtain ⟨k, hk, hf⟩ := List.any_eq_true.mp hany
        have hk' : k <+: fs.resolve (filepathDir (filepathJoin l)) := (List.mem_inits _ _).mp hk
        rw [← hdrop] at hk'
        rw [hfiles k hk'] at hf
        cases hf
      have hmk : ∃ fs1, fs.mkdirAll (filepathDir (filepathJoin l)) = .ok fs1 := by
        unfold FileSystem.mkdirAll
        rw [if_neg (filepathDir_ne_empty _)]
        simp only [hany]
        exact ⟨_, rfl⟩
      obtain ⟨fs1, hmk⟩ := hmk
      obtain ⟨hcwd1, _, hnode1⟩ := mkdirAll_ok hmk
      have hres : fs1.resolve (filepathJoin l) = fs.resolve (filepathJoin l) :=
        resolve_congr fs fs1 hcwd1 _
      have hkey : fs.resolve (filepathJoin l) ≠ [] := by
        rw [hkeyeq]
        simp
      have hnotpre : (fs.resolve (filepathJoin l)).isPrefixOf
          (fs.resolve (filepathDir (filepathJoin l))) = false := by
        cases hb : (fs.resolve (filepathJoin l)).isPrefixOf
            (fs.resolve (filepathDir (filepathJoin l))) with
        | false => rfl
        | true =>
          exfalso
          have hle := (List.isPrefixOf_iff_prefix.mp hb).length_le
          rw [hkeyeq] at hle
          simp at hle
      have hparent : fs1.isDir (fs.resolve (filepathJoin l)).dropLast = true := by
        rw [hdrop]
        exact mkdirAll_isDir hmk _ (List.prefix_refl _)
      have hd1 : fs1.isDir (fs.resolve (filepathJoin l)) = false := by
        simp only [FileSystem.isDir, FileSystem.stat, if_neg hkey, hnode1, hnotpre] at hnotdir ⊢
        simpa using hnotdir
      have hwr : ∃ fs2, fs1.writeFile (filepathJoin l) bytes = .ok fs2 := by
        unfold FileSystem.writeFile
        rw [if_neg hP]
        simp only [hres, hkey, hd1, hparent, false_or, if_true]
        exact ⟨_, rfl⟩
      obtain ⟨fs2, hwr⟩ := hwr
      exact ⟨fs1, fs2, hmk, hwr⟩
    · rw [hn] at hn'
      cases hn'

/-! ## Writing a job file -/

/-- What `GenerateProwjob` leaves when both file-system steps went through: the file
holds the bytes, every proper ancestor of its key is a directory, and no node off the
way to the file has changed. -/
theorem mkdirAll_writeFile_effect {fs fs1 fs2 : FileSystem} {l : List String}
    {bytes : String} (hmk : fs.mkdirAll (filepathDir (filepathJoin l)) = .ok fs1)
    (hwr : fs1.writeFile (filepathJoin l) bytes = .ok fs2) :
    fs2.cwd = fs.cwd ∧
    fs2.readFile (filepathJoin l) = some bytes ∧
    (∀ k, k <+: (fs.resolve (filepathJoin l)).dropLast → fs2.isDir k = true) ∧
    (∀ k, ¬ k <+: fs.resolve (filepathJoin l) → fs2.node k = fs.node k) := by
  obtain ⟨hcwd1, _, hnode1⟩ := mkdirAll_ok hmk
  obtain ⟨hcwd2, hkey, hnotdir, hnode2⟩ := writeFile_ok hwr
  have hres1 := resolve_congr fs fs1 hcwd1 (filepathJoin l)
  have hres2 := resolve_congr fs1 fs2 hcwd2 (filepathJoin l)
  have hcrit := (mkdirAll_writeFile_ok fs l bytes).mp ⟨fs1, fs2, hmk, hwr⟩
  have hdrop : (fs.resolve (filepathJoin l)).dropLast =
      fs.resolve (filepathDir (filepathJoin l)) := by
    rcases filepathJoin_cases l fs.cwd with ⟨_, name, hname⟩ | ⟨hn', _⟩
    · simp only [FileSystem.resolve, hname, List.dropLast_concat]
    · rw [hcrit.1] at hn'
      cases hn'
  refine ⟨hcwd2.trans hcwd1, ?_, ?_, ?_⟩
  · simp [FileSystem.readFile, FileSystem.stat, hres2, hkey, hnode2]
  · intro k hk
    rw [hdrop] at hk
    have hd1 := mkdirAll_isDir hmk k hk
    have hne : k ≠ fs1.resolve (filepathJoin l) := by
      intro heq
      rw [heq, hnotdir] at hd1
      cases hd1
    simpa [FileSystem.isDir, FileSystem.stat, hnode2, hne] using hd1
  · intro k hk
    rw [← hres1] at hk
    have hne : k ≠ fs1.resolve (filepathJoin l) := fun heq => hk (heq ▸ List.prefix_refl _)
    have hnp : k.isPrefixOf (fs.resolve (filepathDir (filepathJoin l))) = false := by
      cases hb : k.isPrefixOf (fs.resolve (filepathDir (filepathJoin l))) with
      | false => rfl
      | true =>
        exfalso
        apply hk
        rw [hres1]
        have := List.isPrefixOf_iff_prefix.mp hb
        rw [← hdrop] at this
        exact this.trans (List.dropLast_prefix _)
    rw [hnode2]
    simp only [if_neg hne, hnode1, hnp]
    simp

/-- C8, as stated, fails: for the empty render context the template engine and the
resolution of the jobs folder succeed, and `GenerateProwjob` panics at the type
assertion on `data["repoName"]` (line 143): it writes no file and returns no error. -/
theorem GenerateProwjob_panics_without_repoName :
    exampleEnv.executeTemplate "presubmits" [] = .ok "presubmits" ∧
    getJobsFolderPath exampleEnv = .ok "/repo/jobs" ∧
    (GenerateProwjob exampleEnv "bar.yaml" "presubmits" [] emptyFS).2 =
      some (Fault.panic "interface conversion: interface is not string") ∧
    (GenerateProwjob exampleEnv "bar.yaml" "presubmits" [] emptyFS).2 ≠ none ∧
    (¬ ∃ msg, (GenerateProwjob exampleEnv "bar.yaml" "presubmits" [] emptyFS).2 =
      some (Fault.error msg)) ∧
    (¬ ∃ k, (GenerateProwjob exampleEnv "bar.yaml" "presubmits" [] emptyFS).1.isFile k = true) := by
  refine ⟨rfl, rfl, rfl, by decide, ?_, ?_⟩
  · rintro ⟨msg, h⟩
    cases h
  · rintro ⟨k, h⟩
    have h1 : (GenerateProwjob exampleEnv "bar.yaml" "presubmits" [] emptyFS).1 = emptyFS := rfl
    rw [h1] at h
    by_cases h0 : k = []
    · simp [FileSystem.isFile, FileSystem.stat, h0] at h
    · simp [FileSystem.isFile, FileSystem.stat, h0, emptyFS] at h

/-- C8, amended: for a render context with a string `repoName` entry whose rendering
and jobs-folder resolution succeed, `GenerateProwjob` returns no error exactly when the
path `<jobs-root>/<repoName>/<fileName>` ends in a file name, no proper ancestor of it
is a regular file and it is not a directory; then the file at that path holds exactly
the rendered bytes (whatever the file system held before), every proper ancestor of it
is a directory (missing ones are created), and nothing off the way to it has changed.
It returns an error when rendering fails, when the jobs folder cannot be resolved, when
the directory cannot be created and when the write fails. -/
theorem GenerateProwjob_spec (env : Env) (fs : FileSystem) (fileName tmpl : String)
    (data : Data) :
    (∀ e, env.executeTemplate tmpl data = .error e →
      GenerateProwjob env fileName tmpl data fs =
        (fs, some (Fault.error ("error executing template: " ++ e)))) ∧
    (∀ bytes e, env.executeTemplate tmpl data = .ok bytes →
      getJobsFolderPath env = .error (Fault.error e) →
      GenerateProwjob env fileName tmpl data fs =
        (fs, some (Fault.error ("error getting jobs folder path: " ++ e)))) ∧
    (∀ bytes root repoName, env.executeTemplate tmpl data = .ok bytes →
      getJobsFolderPath env = .ok root →
      List.lookup "repoName" data = some (Value.str repoName) →
      (∀ e, fs.mkdirAll (filepathDir (filepathJoin [root, repoName, fileName])) = .error e →
        GenerateProwjob env fileName tmpl data fs =
          (fs, some (Fault.error ("error creating Prowjob directory: " ++ e)))) ∧
      (∀ fs1 e, fs.mkdirAll (filepathDir (filepathJoin [root, repoName, fileName])) = .ok fs1 →
        fs1.writeFile (filepathJoin [root, repoName, fileName]) bytes = .error e →
        GenerateProwjob env fileName tmpl data fs =
          (fs1, some (Fault.error ("error writing to path " ++
            filepathJoin [root, repoName, fileName] ++ ": " ++ e)))) ∧
      ((GenerateProwjob env fileName tmpl data fs).2 ≠ none →
        ∃ msg, (GenerateProwjob env fileName tmpl data fs).2 = some (Fault.error msg)) ∧
      ((GenerateProwjob env fileName tmpl data fs).2 = none ↔
        (namesFile (filepathJoin [root, repoName, fileName]) = true ∧
          (∀ k, k <+: (fs.resolve (filepathJoin [root, repoName, fileName])).dropLast →
            fs.isFile k = false) ∧
          fs.isDir (fs.resolve (filepathJoin [root, repoName, fileName])) = false)) ∧
      ((GenerateProwjob env fileName tmpl data fs).2 = none →
        (GenerateProwjob env fileName tmpl data fs).1.cwd = fs.cwd ∧
        (GenerateProwjob env fileName tmpl data fs).1.readFile
          (filepathJoin [root, repoName, fileName]) = some bytes ∧
        (∀ k, k <+: (fs.resolve (filepathJoin [root, repoName, fileName])).dropLast →
          (GenerateProwjob env fileName tmpl data fs).1.isDir k = true) ∧
        (∀ k, ¬ k <+: fs.resolve (filepathJoin [root, repoName, fileName]) →
          (GenerateProwjob env fileName tmpl data fs).1.node k = fs.node k))) := by
  refine ⟨?_, ?_, ?_⟩
  · intro e he
    simp [GenerateProwjob, he]
  · intro bytes e hb he
    simp [GenerateProwjob, hb, he]
  · intro bytes root repoName hb hr hn
    have hcrit := mkdirAll_writeFile_ok fs [root, repoName, fileName] bytes
    refine ⟨?_, ?_, ?_⟩
    · intro e hm
      simp [GenerateProwjob, hb, hr, hn, hm]
    · intro fs1 e hm hw
      simp [GenerateProwjob, hb, hr, hn, hm, hw]
    · cases hm : fs.mkdirAll (filepathDir (filepathJoin [root, repoName, fileName])) with
      | error e =>
        have hG : GenerateProwjob env fileName tmpl data fs =
            (fs, some (Fault.error ("error creating Prowjob directory: " ++ e))) := by
          simp [GenerateProwjob, hb, hr, hn, hm]
        rw [hG]
        refine ⟨fun _ => ⟨_, rfl⟩, ?_, fun h => by cases h⟩
        constructor
        · intro h
          cases h
        · intro h
          obtain ⟨fs1, _, hm', _⟩ := hcrit.mpr h
          rw [hm] at hm'
          cases hm'
      | ok fs1 =>
        cases hw : fs1.writeFile (filepathJoin [root, repoName, fileName]) bytes with
        | error e =>
          have hG : GenerateProwjob env fileName tmpl data fs =
              (fs1, some (Fault.error ("error writing to path " ++
                filepathJoin [root, repoName, fileName] ++ ": " ++ e))) := by
            simp [GenerateProwjob, hb, hr, hn, hm, hw]
          rw [hG]
          refine ⟨fun _ => ⟨_, rfl⟩, ?_, fun h => by cases h⟩
          constructor
          · intro h
            cases h
          · intro h
            obtain ⟨fs1', _, hm', hw'⟩ := hcrit.mpr h
            rw [hm] at hm'
            cases hm'
            rw [hw] at hw'
            cases hw'
        | ok fs2 =>
          have hG : GenerateProwjob env fileName tmpl data fs = (fs2, none) := by
            simp [GenerateProwjob, hb, hr, hn, hm, hw]
          rw [hG]
          refine ⟨fun h => absurd rfl h, ?_, fun _ => mkdirAll_writeFile_effect hm hw⟩
          exact ⟨fun _ => hcrit.mp ⟨fs1, fs2, hm, hw⟩, fun _ => rfl⟩

/-- Witness of C8 (amended): the presubmit `bar.yaml` of repository `foo` is written
into an empty file system, where `/repo`, `/repo/jobs` and `/repo/jobs/foo` are
missing and get created, and over a file that held `old`. -/
theorem GenerateProwjob_spec_witness :
    (emptyFS.isDir ["repo"] = false ∧
      (GenerateProwjob exampleEnv "bar.yaml" "presubmits"
        (renderData exampleEnv "presubmit" "foo" exampleJob) emptyFS).2 = none ∧
      (GenerateProwjob exampleEnv "bar.yaml" "presubmits"
        (renderData exampleEnv "presubmit" "foo" exampleJob) emptyFS).1.readFile
          "/repo/jobs/foo/bar.yaml" = some "presubmits" ∧
      (GenerateProwjob exampleEnv "bar.yaml" "presubmits"
        (renderData exampleEnv "presubmit" "foo" exampleJob) emptyFS).1.isDir
          ["repo", "jobs", "foo"] = true ∧
      (GenerateProwjob exampleEnv "bar.yaml" "presubmits"
        (renderData exampleEnv "presubmit" "foo" exampleJob) emptyFS).1.isDir
          ["repo"] = true) ∧
    (oldFS.readFile "/repo/jobs/foo/bar.yaml" = some "old" ∧
      (GenerateProwjob exampleEnv "bar.yaml" "presubmits"
        (renderData exampleEnv "presubmit" "foo" exampleJob) oldFS).2 = none ∧
      (GenerateProwjob exampleEnv "bar.yaml" "presubmits"
        (renderData exampleEnv "presubmit" "foo" exampleJob) oldFS).1.readFile
          "/repo/jobs/foo/bar.yaml" = some "presubmits") := by
  have h1 := (GenerateProwjob_spec exampleEnv emptyFS "bar.yaml" "presubmits"
    (renderData exampleEnv "presubmit" "foo" exampleJob)).2.2
      "presubmits" "/repo/jobs" "foo" rfl rfl rfl
  have h2 := (GenerateProwjob_spec exampleEnv oldFS "bar.yaml" "presubmits"
    (renderData exampleEnv "presubmit" "foo" exampleJob)).2.2
      "presubmits" "/repo/jobs" "foo" rfl rfl rfl
  have hk : emptyFS.resolve (filepathJoin ["/repo/jobs", "foo", "bar.yaml"]) =
      ["repo", "jobs", "foo", "bar.yaml"] := by decide
  have hk' : oldFS.resolve (filepathJoin ["/repo/jobs", "foo", "bar.yaml"]) =
      ["repo", "jobs", "foo", "bar.yaml"] := by decide
  have hp : filepathJoin ["/repo/jobs", "foo", "bar.yaml"] = "/repo/jobs/foo/bar.yaml" := by
    decide
  have s1 : (GenerateProwjob exampleEnv "bar.yaml" "presubmits"
      (renderData exampleEnv "presubmit" "foo" exampleJob) emptyFS).2 = none := by
    apply h1.2.2.2.1.mpr
    rw [hk]
    refine ⟨by decide, ?_, by decide⟩
    intro k hk2
    have : ∀ k ∈ (["repo", "jobs", "foo"] : List String).inits, emptyFS.isFile k = false := by
      decide
    exact this k ((List.mem_inits _ _).mpr hk2)
  have s2 : (GenerateProwjob exampleEnv "bar.yaml" "presubmits"
      (renderData exampleEnv "presubmit" "foo" exampleJob) oldFS).2 = none := by
    apply h2.2.2.2.1.mpr
    rw [hk']
    refine ⟨by decide, ?_, by decide⟩
    intro k hk2
    have : ∀ k ∈ (["repo", "jobs", "foo"] : List String).inits, oldFS.isFile k = false := by
      decide
    exact this k ((List.mem_inits _ _).mpr hk2)
  have e1 := h1.2.2.2.2 s1
  have e2 := h2.2.2.2.2 s2
  rw [hk] at e1
  rw [hp] at e1 e2
  refine ⟨⟨by decide, s1, e1.2.1, e1.2.2.1 _ (by decide), e1.2.2.1 _ (by decide)⟩,
    by decide, s2, e2.2.1⟩

/-! ## Loops and the clean-up invariant -/

/-- A property kept by every round of a loop is kept by the loop, however it ends. -/
theorem forEach_invariant {α : Type} (P : FileSystem → Prop)
    (f : α → FileSystem → FileSystem × Outcome) (xs : List α)
    (hstep : ∀ x ∈ xs, ∀ fs, P fs → P (f x fs).1) :
    ∀ fs, P fs → P (forEach f xs fs).1 := by
  induction xs with
  | nil => intro fs h; simpa [forEach] using h
  | cons x xs ih =>
    intro fs h
    have h1 := hstep x (List.mem_cons_self _ _) fs h
    have ih' := ih (fun y hy => hstep y (List.mem_cons_of_mem _ hy))
    unfold forEach
    cases hfx : f x fs with
    | mk fs1 o =>
      rw [hfx] at h1
      cases o with
      | success => exact ih' fs1 h1
      | failure m => exact h1
      | panic m => exact h1

/-- What a successful `removeAll` of a non-empty path did. -/
theorem removeAll_ok {fs fs1 : FileSystem} {p : String} (hp : p ≠ "")
    (h : fs.removeAll p = .ok fs1) :
    fs1.cwd = fs.cwd ∧
    fs1.node = (fun k => if (fs.resolve p).isPrefixOf k then none else fs.node k) := by
  unfold FileSystem.removeAll at h
  rw [if_neg hp] at h
  split at h
  · cases h
  · dsimp only at h
    split at h
    · cases h
    · cases h
      exact ⟨rfl, rfl⟩

/-- After the clean-up loop has succeeded, nothing is left in or below the folder of
any organization of the list, and nothing was added anywhere. -/
theorem cleanup_ok (root : String) (orgs : List String) (horgs : ∀ org ∈ orgs, org ≠ "") :
    ∀ fs fs1, forEach (removeOrg root) orgs fs = (fs1, Outcome.success) →
      fs1.cwd = fs.cwd ∧
      (∀ k, fs1.node k = none ∨ fs1.node k = fs.node k) ∧
      ∀ org ∈ orgs, ∀ k,
        FileSystem.resolveFrom fs.cwd (filepathJoin [root, org]) <+: k → fs1.node k = none := by
  induction orgs with
  | nil =>
    intro fs fs1 h
    simp only [forEach, Prod.mk.injEq, and_true] at h
    subst h
    exact ⟨rfl, fun k => Or.inr rfl, fun org horg => absurd horg (List.not_mem_nil _)⟩
  | cons org rest ih =>
    intro fs fs1 h
    have hne : filepathJoin [root, org] ≠ "" :=
      filepathJoin_ne_empty _ ⟨org, by simp, horgs org (List.mem_cons_self _ _)⟩
    unfold forEach removeOrg at h
    cases hrm : fs.removeAll (filepathJoin [root, org]) with
    | error e => simp [hrm] at h
    | ok fs' =>
      simp only [hrm] at h
      obtain ⟨hcwd, hnode⟩ := removeAll_ok hne hrm
      obtain ⟨hcwd1, hmono, hgone⟩ :=
        ih (fun o ho => horgs o (List.mem_cons_of_mem _ ho)) fs' fs1 h
      have hstep : ∀ k, fs'.node k = none ∨ fs'.node k = fs.node k := by
        intro k
        rw [hnode]
        by_cases hk : (fs.resolve (filepathJoin [root, org])).isPrefixOf k = true
        · exact Or.inl (by simp [hk])
        · exact Or.inr (by simp [hk])
      refine ⟨hcwd1.trans hcwd, ?_, ?_⟩
      · intro k
        rcases hmono k with h1 | h1
        · exact Or.inl h1
        · rcases hstep k with h2 | h2
          · exact Or.inl (h1.trans h2)
          · exact Or.inr (h1.trans h2)
      · intro o ho k hk
        rcases List.mem_cons.mp ho with rfl | ho
        · have hk' : (fs.resolve (filepathJoin [root, o])).isPrefixOf k = true :=
            List.isPrefixOf_iff_prefix.mpr hk
          have h2 : fs'.node k = none := by rw [hnode]; simp [hk']
          rcases hmono k with h1 | h1
          · exact h1
          · exact h1.trans h2
        · rw [← hcwd] at hk
          exact hgone o ho k hk

/-- A regular file is never at the root key and is stored in `node`. -/
theorem stat_file {fs : FileSystem} {key : List String} {content : String}
    (h : fs.stat key = some (Node.file content)) :
    key ≠ [] ∧ fs.node key = some (Node.file content) := by
  unfold FileSystem.stat at h
  by_cases h0 : key = []
  · simp [h0] at h
  · exact ⟨h0, by simpa [h0] using h⟩

/-- Creating directories keeps the invariant. -/
theorem mkdirAll_keeps {env : Env} {cwd : List String} {root : String}
    {fs fs1 : FileSystem} {p : String} (h : fs.mkdirAll p = .ok fs1)
    (hP : OnlyOutputs env cwd root fs) : OnlyOutputs env cwd root fs1 := by
  obtain ⟨hcwd, _, hnode⟩ := mkdirAll_ok h
  refine ⟨hcwd.trans hP.1, ?_⟩
  intro key content hu hs
  obtain ⟨h0, hn⟩ := stat_file hs
  apply hP.2 key content hu
  rw [hnode] at hn
  dsimp only at hn
  split at hn
  · cases hn
  · simpa [FileSystem.stat, h0] using hn

/-- Writing the rendering of a job at its output path keeps the invariant. -/
theorem writeFile_keeps {env : Env} {cwd : List String} {root : String}
    {fs1 fs2 : FileSystem} {p bytes : String} (h : fs1.writeFile p bytes = .ok fs2)
    (hP : OnlyOutputs env cwd root fs1)
    (hW : WrittenBy env cwd root (FileSystem.resolveFrom cwd p) bytes) :
    OnlyOutputs env cwd root fs2 := by
  obtain ⟨hcwd, _, _, hnode⟩ := writeFile_ok h
  refine ⟨hcwd.trans hP.1, ?_⟩
  intro key content hu hs
  obtain ⟨h0, hn⟩ := stat_file hs
  rw [hnode] at hn
  dsimp only at hn
  split at hn
  · rename_i hk
    cases hn
    rw [hk, FileSystem.resolve, hP.1]
    exact hW
  · apply hP.2 key content hu
    simpa [FileSystem.stat, h0] using hn

/-- One call of `GenerateProwjob` from the innermost loop keeps the invariant. -/
theorem GenerateProwjob_keeps (env : Env) (cwd : List String) (root jobType template : String)
    (jobList : JobList) (repo : String × List (String × JobConfig)) (job : String × JobConfig)
    (hjt : jobType ∈ jobTypes) (hjl : env.getJobList jobType = .ok jobList)
    (htm : useTemplate env jobType = .ok template) (hrepo : repo ∈ jobList)
    (hjob : job ∈ repo.2) (hroot : getJobsFolderPath env = .ok root)
    (fs : FileSystem) (hP : OnlyOutputs env cwd root fs) :
    OnlyOutputs env cwd root
      (GenerateProwjob env job.1 template (renderData env jobType repo.1 job.2) fs).1 := by
  have hl : List.lookup "repoName" (renderData env jobType repo.1 job.2) =
      some (Value.str repo.1) := rfl
  unfold GenerateProwjob
  cases hex : env.executeTemplate template (renderData env jobType repo.1 job.2) with
  | error e => exact hP
  | ok bytes =>
    simp only [hroot, hl]
    cases hmk : fs.mkdirAll (filepathDir (filepathJoin [root, repo.1, job.1])) with
    | error e => exact hP
    | ok fs1 =>
      have hP1 := mkdirAll_keeps hmk hP
      dsimp only
      cases hwr : fs1.writeFile (filepathJoin [root, repo.1, job.1]) bytes with
      | error e => exact hP1
      | ok fs2 =>
        exact writeFile_keeps hwr hP1
          ⟨jobType, hjt, jobList, template, hjl, htm, repo, hrepo, job, hjob, rfl, hex⟩

/-- The file system after one round of the innermost loop is the one `GenerateProwjob`
leaves. -/
theorem generateJob_state (env : Env) (jobType template repoName : String)
    (job : String × JobConfig) (fs : FileSystem) :
    (generateJob env jobType template repoName job fs).1 =
      (GenerateProwjob env job.1 template (renderData env jobType repoName job.2) fs).1 := by
  unfold generateJob
  cases hg : GenerateProwjob env job.1 template (renderData env jobType repoName job.2) fs with
  | mk fs1 r =>
    cases r with
    | none => rfl
    | some f => cases f <;> rfl

/-- The loop over one job kind keeps the invariant. -/
theorem generateJobType_keeps (env : Env) (cwd : List String) (root jobType : String)
    (hjt : jobType ∈ jobTypes) (hroot : getJobsFolderPath env = .ok root)
    (fs : FileSystem) (hP : OnlyOutputs env cwd root fs) :
    OnlyOutputs env cwd root (generateJobType env jobType fs).1 := by
  unfold generateJobType
  cases hjl : env.getJobList jobType with
  | error e => exact hP
  | ok jobList =>
    cases htm : useTemplate env jobType with
    | error e => exact hP
    | ok template =>
      dsimp only
      apply forEach_invariant (OnlyOutputs env cwd root) _ jobList _ fs hP
      intro repo hrepo fs1 hP1
      apply forEach_invariant (OnlyOutputs env cwd root) _ repo.2 _ fs1 hP1
      intro job hjob fs2 hP2
      rw [generateJob_state]
      exact GenerateProwjob_keeps env cwd root jobType template jobList repo job hjt hjl htm
        hrepo hjob hroot fs2 hP2

/-- After a successful run, every regular file in or below the folder of a supported
organization is the rendering of a job of that run, at that job's output path. -/
theorem main_only_outputs (env : Env) (fs : FileSystem)
    (h : (main env fs).2 = Outcome.success) :
    ∃ root, getJobsFolderPath env = .ok root ∧ OnlyOutputs env fs.cwd root (main env fs).1 := by
  unfold main at h ⊢
  cases hroot : getJobsFolderPath env with
  | error f =>
    cases f <;> simp [hroot] at h
  | ok root =>
    refine ⟨root, rfl, ?_⟩
    simp only [hroot] at h ⊢
    cases hcl : forEach (removeOrg root) orgsSupported fs with
    | mk fs1 o =>
      simp only [hcl] at h ⊢
      cases o with
      | failure m => simp at h
      | panic m => simp at h
      | success =>
        dsimp only
        obtain ⟨hcwd, _, hgone⟩ := cleanup_ok root orgsSupported
          (by intro org horg; simp [orgsSupported] at horg; rw [horg]; decide) fs fs1 hcl
        have hP1 : OnlyOutputs env fs.cwd root fs1 := by
          refine ⟨hcwd, ?_⟩
          intro key content hu hs
          obtain ⟨org, horg, hk⟩ := hu
          have := hgone org horg key hk
          rw [(stat_file hs).2] at this
          cases this
        exact forEach_invariant (OnlyOutputs env fs.cwd root) _ jobTypes
          (fun jobType hjt fs2 hP2 =>
            generateJobType_keeps env fs.cwd root jobType hjt hroot fs2 hP2) fs1 hP1

/-- `GenerateProwjob` leaves the working directory where it was. -/
theorem GenerateProwjob_cwd (env : Env) (fileName tmpl : String) (data : Data)
    (fs : FileSystem) : (GenerateProwjob env fileName tmpl data fs).1.cwd = fs.cwd := by
  unfold GenerateProwjob
  cases env.executeTemplate tmpl data with
  | error e => rfl
  | ok bytes =>
    dsimp only
    cases getJobsFolderPath env with
    | error f => cases f <;> rfl
    | ok root =>
      dsimp only
      split
      · rename_i repoName _
        cases hmk : fs.mkdirAll (filepathDir (filepathJoin [root, repoName, fileName])) with
        | error e => rfl
        | ok fs1 =>
          dsimp only
          cases hwr : fs1.writeFile (filepathJoin [root, repoName, fileName]) bytes with
          | error e => exact (mkdirAll_ok hmk).1
          | ok fs2 => exact (writeFile_ok hwr).1.trans (mkdirAll_ok hmk).1
      · rfl

/-- One round of the clean-up loop leaves the working directory where it was. -/
theorem removeOrg_cwd (root org : String) (fs : FileSystem) :
    (removeOrg root org fs).1.cwd = fs.cwd := by
  unfold removeOrg
  cases hrm : fs.removeAll (filepathJoin [root, org]) with
  | error e => rfl
  | ok fs1 =>
    dsimp only
    by_cases hp : filepathJoin [root, org] = ""
    · rw [hp] at hrm
      simp only [FileSystem.removeAll, if_true] at hrm
      cases hrm
      rfl
    · exact (removeAll_ok hp hrm).1

/-- Every run leaves the working directory where it was. -/
theorem main_cwd (env : Env) (fs : FileSystem) : (main env fs).1.cwd = fs.cwd := by
  unfold main
  cases getJobsFolderPath env with
  | error f => cases f <;> rfl
  | ok root =>
    dsimp only
    have h1 : (forEach (removeOrg root) orgsSupported fs).1.cwd = fs.cwd :=
      forEach_invariant (fun s => s.cwd = fs.cwd) _ orgsSupported
        (fun org _ s hs => (removeOrg_cwd root org s).trans hs) fs rfl
    cases hcl : forEach (removeOrg root) orgsSupported fs with
    | mk fs1 o =>
      rw [hcl] at h1
      cases o with
      | failure m => exact h1
      | panic m => exact h1
      | success =>
        dsimp only
        apply forEach_invariant (fun s => s.cwd = fs.cwd) _ jobTypes _ fs1 h1
        intro jobType _ s hs
        unfold generateJobType
        cases env.getJobList jobType with
        | error e => exact hs
        | ok jobList =>
          dsimp only
          cases useTemplate env jobType with
          | error e => exact hs
          | ok template =>
            dsimp only
            apply forEach_invariant (fun s => s.cwd = fs.cwd) _ jobList _ s hs
            intro repo _ s1 hs1
            apply forEach_invariant (fun s => s.cwd = fs.cwd) _ repo.2 _ s1 hs1
            intro job _ s2 hs2
            rw [generateJob_state]
            exact (GenerateProwjob_cwd env _ _ _ s2).trans hs2

/-! ## The clean-up property -/

/-- C9, as stated, fails: the first run writes `/repo/jobs/foo/bar.yaml` for the job
`bar.yaml` of repository `foo`; the second run has no job definition at all and
succeeds, and the file is still there, because it is outside the folder of the
supported organization. -/
theorem main_stale_file_outside_org :
    emptyFS.readFile "/repo/jobs/foo/bar.yaml" = none ∧
    (main exampleEnv emptyFS).2 = Outcome.success ∧
    (main exampleEnv emptyFS).1.readFile "/repo/jobs/foo/bar.yaml" = some "presubmits" ∧
    (∀ k, emptyJobsEnv.getJobList k = .ok []) ∧
    (main emptyJobsEnv (main exampleEnv emptyFS).1).2 = Outcome.success ∧
    (main emptyJobsEnv (main exampleEnv emptyFS).1).1.readFile "/repo/jobs/foo/bar.yaml" =
      some "presubmits" := by
  refine ⟨by decide, by decide, by decide, fun _ => rfl, by decide, by decide⟩

/-- C9, amended: after a run with a first job list followed by a successful run with a
second one, every regular file in or below the folder of a supported organization is
the rendering of a job of the second list at that job's output path; a key in such a
folder that is the output path of no job of the second list holds no file. -/
theorem main_no_stale_file (env1 env2 : Env) (fs0 : FileSystem)
    (h : (main env2 (main env1 fs0).1).2 = Outcome.success) :
    ∃ root, getJobsFolderPath env2 = .ok root ∧
      (∀ key content, UnderOrgFolder fs0.cwd root key →
        (main env2 (main env1 fs0).1).1.stat key = some (Node.file content) →
        WrittenBy env2 fs0.cwd root key content) ∧
      (∀ key, UnderOrgFolder fs0.cwd root key →
        (¬ ∃ content, WrittenBy env2 fs0.cwd root key content) →
        (main env2 (main env1 fs0).1).1.isFile key = false) := by
  obtain ⟨root, hroot, _, hP⟩ := main_only_outputs env2 (main env1 fs0).1 h
  rw [main_cwd env1 fs0] at hP
  refine ⟨root, hroot, hP, ?_⟩
  intro key hu hno
  cases hs : (main env2 (main env1 fs0).1).1.stat key with
  | none => simp [FileSystem.isFile, hs]
  | some n =>
    cases n with
    | dir => simp [FileSystem.isFile, hs]
    | file content => exact absurd ⟨content, hP key content hu hs⟩ hno

/-- Witness of C9 (amended): the first run writes `/repo/jobs/rcrozean/foo/bar.yaml`,
the second run has no job definition, succeeds, and the file is gone. -/
theorem main_no_stale_file_witness :
    (main orgEnv emptyFS).1.readFile "/repo/jobs/rcrozean/foo/bar.yaml" = some "presubmits" ∧
    (main emptyJobsEnv (main orgEnv emptyFS).1).1.readFile "/repo/jobs/rcrozean/foo/bar.yaml" =
      none ∧
    ∃ root, getJobsFolderPath emptyJobsEnv = .ok root ∧
      (∀ key content, UnderOrgFolder emptyFS.cwd root key →
        (main emptyJobsEnv (main orgEnv emptyFS).1).1.stat key = some (Node.file content) →
        WrittenBy emptyJobsEnv emptyFS.cwd root key content) ∧
      (∀ key, UnderOrgFolder emptyFS.cwd root key →
        (¬ ∃ content, WrittenBy emptyJobsEnv emptyFS.cwd root key content) →
        (main emptyJobsEnv (main orgEnv emptyFS).1).1.isFile key = false) :=
  ⟨by decide, by decide, main_no_stale_file orgEnv emptyJobsEnv emptyFS (by decide)⟩

end Templater
